import Mathlib

/-!
# Verification of the DTC record reconciliation and enrichment pipeline

This file gives a shallow embedding of the core operations of the
`carpulse-data` repository's DTC (diagnostic trouble code) pipeline and
proves properties of them:

* `merge_to_json.py` — `merge_dtc_codes`: key-based insert/update merge of an
  incoming CSV batch into the persisted DTC dataset.
* `fill_dtc_gaps.py` — `save_dtc_codes` (sort + drop-duplicates persist pass),
  `fill_gaps_for_manufacturer` (filter of already-present codes),
  `cleanup_powertrain_data` / `normalize_powertrain`,
  `import_all_generic_codes` / `quick_import_codes`,
  `import_scraped_dtc_codes` (conditional description update),
  `enrich_existing_codes` (field-level backfill),
  `classify_codes_with_ai` (batch classification driver), and
  `parse_json_robustly` (multi-strategy recovery of malformed JSON).

Machine-level conventions of the embedding:
* Python strings are Lean `String`s; `str.upper` / `str.lower` / `str.strip`
  are modelled on the ASCII fragment (the data handled by the pipeline —
  DTC codes, manufacturer ids, powertrain labels — is ASCII).
* Python string comparison is code-point lexicographic, matching Lean's
  `String` linear order on `List Char`.
* `list.sort` / `sort_values` are modelled with the stable `insertionSort`.
* A pandas cell that may be NaN is modelled as `Option String`.
-/

namespace Carpulse

/-! ## ASCII string helpers (Python `str.upper`, `str.lower`, `str.strip`) -/

/-- ASCII fragment of Python `str.upper`. -/
def pyUpperChar (c : Char) : Char :=
  if 'a' ≤ c ∧ c ≤ 'z' then Char.ofNat (c.toNat - 32) else c

/-- ASCII fragment of Python `str.lower`. -/
def pyLowerChar (c : Char) : Char :=
  if 'A' ≤ c ∧ c ≤ 'Z' then Char.ofNat (c.toNat + 32) else c

def pyUpper (s : String) : String := ⟨s.data.map pyUpperChar⟩

def pyLower (s : String) : String := ⟨s.data.map pyLowerChar⟩

/-- Python `str` whitespace for `strip` (ASCII fragment). -/
def isPyWs (c : Char) : Bool :=
  c = ' ' || c = '\t' || c = '\n' || c = '\r' || c = '\x0b' || c = '\x0c'

def pyStrip (s : String) : String :=
  ⟨(s.data.dropWhile isPyWs).reverse.dropWhile isPyWs |>.reverse⟩

/-- Python `needle in haystack` on strings (substring containment). -/
def listIsInfix (needle : List Char) : List Char → Bool
  | [] => needle.isEmpty
  | c :: cs => needle.isPrefixOf (c :: cs) || listIsInfix needle cs

def pyInStr (needle hay : String) : Bool := listIsInfix needle.data hay.data

/-! ## The DTC record

One row of `dtc_codes.csv`, in the canonical column order used by
`merge_to_json.py` (`fieldnames`) and `fill_dtc_gaps.py` (`expected_cols`).
An incoming CSV/dict row is normalised by `{fn: row.get(fn, "")}`; absent
fields read as `""`, so quantifying over `DtcRow` covers every normalised
incoming mapping. -/

structure DtcRow where
  code : String
  make_id : String
  description : String
  detailed_description : String
  system : String
  severity : String
  common_causes : String
  symptoms : String
  applicable_models : String
  applicable_years : String
  powertrain_type : String
deriving DecidableEq, Repr

/-- The raw identity key used by `merge_dtc_codes` and by
`save_dtc_codes`' `drop_duplicates(subset=['code', 'make_id'])`:
the pair of strings exactly as stored, with no case normalisation. -/
def keyRaw (r : DtcRow) : String × String := (r.code, r.make_id)

/-- The case-normalised identity key the specification describes:
(`code` uppercased, `ownerId` lowercased). -/
def keyCi (r : DtcRow) : String × String := (pyUpper r.code, pyLower r.make_id)

/-! ## Lexicographic order on string pairs (Python tuple comparison)

Python compares strings by code points and tuples lexicographically.
The comparison is implemented as an executable boolean so every concrete
instance can be evaluated by the kernel. -/

/-- Code-point lexicographic strict order on character lists. -/
def listLexLt : List Char → List Char → Bool
  | [], [] => false
  | [], _ :: _ => true
  | _ :: _, [] => false
  | a :: as, b :: bs =>
    if a.toNat < b.toNat then true
    else if b.toNat < a.toNat then false
    else listLexLt as bs

def strLtB (s t : String) : Bool := listLexLt s.data t.data

def strLeB (s t : String) : Bool := strLtB s t || s == t

theorem char_toNat_inj {a b : Char} (h : a.toNat = b.toNat) : a = b :=
  Char.ext (UInt32.ext h)

theorem listLexLt_irrefl : ∀ l : List Char, listLexLt l l = false
  | [] => rfl
  | a :: as => by
    rw [listLexLt, if_neg (lt_irrefl a.toNat), if_neg (lt_irrefl a.toNat)]
    exact listLexLt_irrefl as

theorem listLexLt_trichotomy : ∀ a b : List Char,
    listLexLt a b = true ∨ listLexLt b a = true ∨ a = b
  | [], [] => Or.inr (Or.inr rfl)
  | [], _ :: _ => Or.inl rfl
  | _ :: _, [] => Or.inr (Or.inl rfl)
  | a :: as, b :: bs => by
    rcases Nat.lt_trichotomy a.toNat b.toNat with h | h | h
    · left
      rw [listLexLt, if_pos h]
    · have hab : a = b := char_toNat_inj h
      subst hab
      rcases listLexLt_trichotomy as bs with h2 | h2 | h2
      · left
        rw [listLexLt, if_neg (lt_irrefl a.toNat), if_neg (lt_irrefl a.toNat)]
        exact h2
      · right; left
        rw [listLexLt, if_neg (lt_irrefl a.toNat), if_neg (lt_irrefl a.toNat)]
        exact h2
      · right; right
        rw [h2]
    · right; left
      rw [listLexLt, if_pos h]

theorem listLexLt_trans : ∀ {a b c : List Char},
    listLexLt a b = true → listLexLt b c = true → listLexLt a c = true := by
  intro a
  induction a with
  | nil =>
    intro b c h1 h2
    cases c with
    | nil =>
      cases b with
      | nil => exact absurd h2 (by simp [listLexLt])
      | cons y ys => exact absurd h2 (by simp [listLexLt])
    | cons z zs => rfl
  | cons x xs ih =>
    intro b c h1 h2
    cases b with
    | nil => exact absurd h1 (by simp [listLexLt])
    | cons y ys =>
      cases c with
      | nil => exact absurd h2 (by simp [listLexLt])
      | cons z zs =>
        rw [listLexLt] at h1 h2 ⊢
        rcases Nat.lt_trichotomy x.toNat y.toNat with hxy | hxy | hxy
        · rcases Nat.lt_trichotomy y.toNat z.toNat with hyz | hyz | hyz
          · rw [if_pos (hxy.trans hyz)]
          · rw [if_pos (hyz ▸ hxy)]
          · rw [if_pos hyz, if_neg (Nat.lt_asymm hyz)] at h2
            cases h2
        · rcases Nat.lt_trichotomy y.toNat z.toNat with hyz | hyz | hyz
          · rw [if_pos (hxy ▸ hyz)]
          · rw [if_neg (hxy ▸ hyz ▸ lt_irrefl z.toNat),
              if_neg (hxy ▸ hyz ▸ lt_irrefl z.toNat)]
            rw [if_neg (hxy ▸ lt_irrefl y.toNat), if_neg (hxy ▸ lt_irrefl y.toNat)] at h1
            rw [if_neg (hyz ▸ lt_irrefl z.toNat), if_neg (hyz ▸ lt_irrefl z.toNat)] at h2
            exact ih h1 h2
          · rw [if_pos hyz, if_neg (Nat.lt_asymm hyz)] at h2
            cases h2
        · rw [if_pos hxy, if_neg (Nat.lt_asymm hxy)] at h1
          cases h1

theorem listLexLt_asymm {a b : List Char} (h1 : listLexLt a b = true) :
    listLexLt b a = false := by
  by_contra hc
  have h2 : listLexLt b a = true := by
    cases hval : listLexLt b a
    · exact absurd hval hc
    · rfl
  have := listLexLt_trans h1 h2
  rw [listLexLt_irrefl a] at this
  cases this

theorem string_ext {s t : String} (h : s.data = t.data) : s = t := by
  cases s
  cases t
  cases h
  rfl

/-- Python tuple comparison `(a1, a2) <= (b1, b2)` for string pairs. -/
def pairLe (p q : String × String) : Prop :=
  strLtB p.1 q.1 = true ∨ (p.1 = q.1 ∧ strLeB p.2 q.2 = true)

instance : DecidableRel pairLe := fun p q => by
  unfold pairLe; infer_instance

theorem strLeB_refl (s : String) : strLeB s s = true := by
  simp [strLeB]

theorem pairLe_refl (p : String × String) : pairLe p p := Or.inr ⟨rfl, strLeB_refl _⟩

theorem strLeB_iff {s t : String} :
    strLeB s t = true ↔ strLtB s t = true ∨ s = t := by
  unfold strLeB
  rw [Bool.or_eq_true, beq_iff_eq]

theorem strLtB_or_eq_of_not_gt {s t : String} (h : ¬ strLtB t s = true) :
    strLtB s t = true ∨ s = t := by
  rcases listLexLt_trichotomy s.data t.data with h1 | h1 | h1
  · exact Or.inl h1
  · exact absurd h1 h
  · exact Or.inr (string_ext h1)

theorem pairLe_total (p q : String × String) : pairLe p q ∨ pairLe q p := by
  rcases listLexLt_trichotomy p.1.data q.1.data with h | h | h
  · exact Or.inl (Or.inl h)
  · exact Or.inr (Or.inl h)
  · have he : p.1 = q.1 := string_ext h
    rcases listLexLt_trichotomy p.2.data q.2.data with h2 | h2 | h2
    · exact Or.inl (Or.inr ⟨he, strLeB_iff.mpr (Or.inl h2)⟩)
    · exact Or.inr (Or.inr ⟨he.symm, strLeB_iff.mpr (Or.inl h2)⟩)
    · exact Or.inl (Or.inr ⟨he, strLeB_iff.mpr (Or.inr (string_ext h2))⟩)

theorem strLtB_trans {a b c : String} (h1 : strLtB a b = true) (h2 : strLtB b c = true) :
    strLtB a c = true := listLexLt_trans h1 h2

theorem strLtB_asymm {s t : String} (h : strLtB s t = true) : strLtB t s = false :=
  listLexLt_asymm h

theorem pairLe_trans {p q r : String × String} (h1 : pairLe p q) (h2 : pairLe q r) :
    pairLe p r := by
  rcases h1 with h1 | ⟨e1, l1⟩
  · rcases h2 with h2 | ⟨e2, _⟩
    · exact Or.inl (strLtB_trans h1 h2)
    · exact Or.inl (e2 ▸ h1)
  · rcases h2 with h2 | ⟨e2, l2⟩
    · exact Or.inl (e1 ▸ h2)
    · refine Or.inr ⟨e1.trans e2, ?_⟩
      rcases strLeB_iff.mp l1 with hl1 | hl1
      · rcases strLeB_iff.mp l2 with hl2 | hl2
        · exact strLeB_iff.mpr (Or.inl (strLtB_trans hl1 hl2))
        · exact strLeB_iff.mpr (Or.inl (hl2 ▸ hl1))
      · exact strLeB_iff.mpr (hl1 ▸ strLeB_iff.mp l2)

theorem pairLe_antisymm {p q : String × String} (h1 : pairLe p q) (h2 : pairLe q p) :
    p = q := by
  rcases h1 with h1 | ⟨e1, l1⟩
  · rcases h2 with h2 | ⟨e2, _⟩
    · rw [strLtB_asymm h1] at h2
      cases h2
    · rw [strLtB, e2, listLexLt_irrefl] at h1
      cases h1
  · rcases h2 with h2 | ⟨e2, l2⟩
    · rw [strLtB, e1, listLexLt_irrefl] at h2
      cases h2
    · rcases strLeB_iff.mp l1 with hl1 | hl1
      · rcases strLeB_iff.mp l2 with hl2 | hl2
        · rw [strLtB_asymm hl1] at hl2
          cases hl2
        · exact Prod.ext e1 hl2.symm
      · exact Prod.ext e1 hl1

/-- Sort relation of `merge_dtc_codes`:
`existing_rows.sort(key=lambda x: (x.get("code", ""), x.get("make_id", "")))`. -/
def mergeSortRel (a b : DtcRow) : Prop := pairLe (a.code, a.make_id) (b.code, b.make_id)

/-- Sort relation of `save_dtc_codes`: `df.sort_values(['make_id', 'code'])`. -/
def saveSortRel (a b : DtcRow) : Prop := pairLe (a.make_id, a.code) (b.make_id, b.code)

instance : DecidableRel mergeSortRel := fun a b => by unfold mergeSortRel; infer_instance

instance : DecidableRel saveSortRel := fun a b => by unfold saveSortRel; infer_instance

instance : IsTotal DtcRow mergeSortRel := ⟨fun a b => pairLe_total _ _⟩

instance : IsTrans DtcRow mergeSortRel := ⟨fun _ _ _ => pairLe_trans⟩

instance : IsTotal DtcRow saveSortRel := ⟨fun a b => pairLe_total _ _⟩

instance : IsTrans DtcRow saveSortRel := ⟨fun _ _ _ => pairLe_trans⟩

/-! ## `merge_to_json.merge_dtc_codes` -/

/-- Update branch of `merge_dtc_codes`: scan `existing_rows` and replace the
first row whose raw key equals `k` with the normalised incoming row. -/
def replaceFirst (rows : List DtcRow) (k : String × String) (nr : DtcRow) : List DtcRow :=
  match rows with
  | [] => []
  | r :: rs => if keyRaw r = k then nr :: rs else r :: replaceFirst rs k nr

/-- The per-row loop of `merge_dtc_codes`: for each incoming row, insert it if
its `(code, make_id)` key is absent from `existing_codes`, otherwise replace
the first existing row with that key.  State: working rows, key set (modelled
as a list), `new_codes` counter, `updated_codes` counter. -/
def mergeLoop (rows : List DtcRow) (keys : List (String × String)) (added updated : Nat) :
    List DtcRow → List DtcRow × List (String × String) × Nat × Nat
  | [] => (rows, keys, added, updated)
  | b :: bs =>
    if keyRaw b ∈ keys then
      mergeLoop (replaceFirst rows (keyRaw b) b) keys added (updated + 1) bs
    else
      mergeLoop (rows ++ [b]) (keys ++ [keyRaw b]) (added + 1) updated bs

structure MergeResult where
  rows : List DtcRow
  added : Nat
  updated : Nat
deriving DecidableEq, Repr

/-- `merge_to_json.merge_dtc_codes`: read the persisted rows, merge the
incoming batch (insert new keys, replace on existing keys), then
sort by `(code, make_id)` and persist. -/
def mergeDtcCodes (existing batch : List DtcRow) : MergeResult :=
  let st := mergeLoop existing (existing.map keyRaw) 0 0 batch
  ⟨List.insertionSort mergeSortRel st.1, st.2.2.1, st.2.2.2⟩

/-! ## `fill_dtc_gaps.save_dtc_codes` -/

/-- pandas `drop_duplicates(subset=['code', 'make_id'], keep='last')`:
keep, in order, every row with no later row of the same raw key. -/
def keepLast : List DtcRow → List DtcRow
  | [] => []
  | r :: rs => if rs.any (fun x => keyRaw x = keyRaw r) then keepLast rs else r :: keepLast rs

/-- `save_dtc_codes`: sort by `(make_id, code)` then drop exact-key
duplicates keeping the last occurrence, and write the result. -/
def saveDtcCodes (df : List DtcRow) : List DtcRow :=
  keepLast (List.insertionSort saveSortRel df)

/-- The insert filter of `fill_gaps_for_manufacturer`: set `make_id` on every
generated row, then drop rows whose uppercased code is already present
(uppercased) for this manufacturer. -/
def fillFilterNew (df : List DtcRow) (m : String) (batch : List DtcRow) : List DtcRow :=
  let existingCodes := (df.filter (fun r => r.make_id = m)).map (fun r => pyUpper r.code)
  (batch.map (fun b => { b with make_id := m })).filter
    (fun b => ¬ pyUpper b.code ∈ existingCodes)

/-- One merge-and-persist round of the gap-filling flow:
`fill_gaps_for_manufacturer` (concat of the filtered batch) followed by
`save_dtc_codes`. -/
def fillGapsMergeSave (df : List DtcRow) (m : String) (batch : List DtcRow) : List DtcRow :=
  saveDtcCodes (df ++ fillFilterNew df m batch)

/-- Number of rows counted as added by the gap-filling flow
(`stats.add_codes(make_id, len(new_df))`). -/
def fillAddedCount (df : List DtcRow) (m : String) (batch : List DtcRow) : Nat :=
  (fillFilterNew df m batch).length

/-! ## Lemmas about `keepLast` -/

theorem keepLast_sublist (l : List DtcRow) : List.Sublist (keepLast l) l := by
  induction l with
  | nil => simp [keepLast]
  | cons r rs ih =>
    rw [keepLast]
    split
    · exact ih.trans (List.sublist_cons_self r rs)
    · exact ih.cons₂ r

/-- The output of `keepLast` has pairwise-distinct raw keys. -/
theorem keepLast_keys_nodup (l : List DtcRow) :
    (keepLast l).Pairwise (fun a b => keyRaw a ≠ keyRaw b) := by
  induction l with
  | nil => simp [keepLast]
  | cons r rs ih =>
    rw [keepLast]
    split
    · exact ih
    · next hany =>
      refine List.Pairwise.cons (fun x hx hk => ?_) ih
      have hmem : x ∈ rs := (keepLast_sublist rs).subset hx
      exact hany (List.any_eq_true.mpr ⟨x, hmem, decide_eq_true hk.symm⟩)

theorem keepLast_eq_self_of_nodup {l : List DtcRow}
    (h : l.Pairwise (fun a b => keyRaw a ≠ keyRaw b)) : keepLast l = l := by
  induction l with
  | nil => rfl
  | cons r rs ih =>
    rcases List.pairwise_cons.mp h with ⟨hr, hrs⟩
    have hany : rs.any (fun x => keyRaw x = keyRaw r) = false := by
      rw [List.any_eq_false]
      intro x hx
      simpa using (hr x hx).symm
    rw [keepLast, hany, ih hrs]
    simp

/-- Every row of `l` has a same-raw-key representative surviving `keepLast`. -/
theorem keepLast_key_surjective {l : List DtcRow} : ∀ {x : DtcRow}, x ∈ l →
    ∃ y ∈ keepLast l, keyRaw y = keyRaw x := by
  induction l with
  | nil => intro x hx; cases hx
  | cons r rs ih =>
    intro x hx
    rw [keepLast]
    rcases List.mem_cons.mp hx with rfl | hx'
    · split
      · next hany =>
        rcases List.any_eq_true.mp hany with ⟨y, hy, hk⟩
        rcases ih hy with ⟨z, hz, hzk⟩
        exact ⟨z, hz, hzk.trans (of_decide_eq_true hk)⟩
      · exact ⟨x, List.mem_cons_self _ _, rfl⟩
    · rcases ih hx' with ⟨z, hz, hzk⟩
      split
      · exact ⟨z, hz, hzk⟩
      · exact ⟨z, List.mem_cons_of_mem _ hz, hzk⟩

theorem sorted_keepLast {r : DtcRow → DtcRow → Prop} {l : List DtcRow}
    (h : l.Sorted r) : (keepLast l).Sorted r :=
  h.sublist (keepLast_sublist l)

/-! ## Properties of `saveDtcCodes` -/

/-- After the `save_dtc_codes` persist pass, raw keys are pairwise distinct. -/
theorem saveDtcCodes_keys_nodup (df : List DtcRow) :
    (saveDtcCodes df).Pairwise (fun a b => keyRaw a ≠ keyRaw b) :=
  keepLast_keys_nodup _

theorem saveDtcCodes_sorted (df : List DtcRow) :
    (saveDtcCodes df).Sorted saveSortRel :=
  sorted_keepLast (List.sorted_insertionSort _ _)

theorem saveDtcCodes_key_surjective {df : List DtcRow} {x : DtcRow} (hx : x ∈ df) :
    ∃ y ∈ saveDtcCodes df, keyRaw y = keyRaw x := by
  have hx' : x ∈ List.insertionSort saveSortRel df :=
    (List.mem_insertionSort saveSortRel).mpr hx
  exact keepLast_key_surjective hx'

/-- Persisting an already sorted, already key-deduplicated dataset is a no-op. -/
theorem saveDtcCodes_eq_self {df : List DtcRow} (hs : df.Sorted saveSortRel)
    (hd : df.Pairwise (fun a b => keyRaw a ≠ keyRaw b)) : saveDtcCodes df = df := by
  unfold saveDtcCodes
  rw [List.Sorted.insertionSort_eq hs, keepLast_eq_self_of_nodup hd]

/-! ## Idempotence of the gap-filling merge-and-save round -/

/-- After one round, every batch row's uppercased code is present for the
target manufacturer, so the second round's filter keeps nothing. -/
theorem fillFilterNew_after_round (df : List DtcRow) (m : String) (batch : List DtcRow) :
    fillFilterNew (fillGapsMergeSave df m batch) m batch = [] := by
  apply List.filter_eq_nil_iff.mpr
  intro b hb
  simp only [decide_not, Bool.not_eq_true', Bool.not_eq_false]
  rw [decide_eq_true_iff]
  -- must show: pyUpper b.code occurs among the round result's make-m codes
  have hbm : b.make_id = m := by
    rcases List.mem_map.mp hb with ⟨b0, _, rfl⟩
    rfl
  -- does b survive the first round's filter?
  by_cases hkept : b ∈ fillFilterNew df m batch
  · have hpre : b ∈ df ++ fillFilterNew df m batch := List.mem_append_right _ hkept
    rcases saveDtcCodes_key_surjective hpre with ⟨y, hy, hyk⟩
    have hyc : y.code = b.code := congrArg Prod.fst hyk
    have hym : y.make_id = b.make_id := congrArg Prod.snd hyk
    refine List.mem_map.mpr ⟨y, List.mem_filter.mpr ⟨hy, ?_⟩, by rw [hyc]⟩
    rw [hym, hbm]
    simp
  · -- b was filtered out: some df row with make m shares its uppercased code
    have hbb : b ∈ batch.map (fun b => { b with make_id := m }) := hb
    have hcond : pyUpper b.code ∈
        (df.filter (fun r => r.make_id = m)).map (fun r => pyUpper r.code) := by
      by_contra hnot
      exact hkept (List.mem_filter.mpr ⟨hbb, by simpa using hnot⟩)
    rcases List.mem_map.mp hcond with ⟨d, hd, hdc⟩
    rcases List.mem_filter.mp hd with ⟨hddf, hdm⟩
    rcases saveDtcCodes_key_surjective (List.mem_append_left _ hddf) with ⟨y, hy, hyk⟩
    have hyc : y.code = d.code := congrArg Prod.fst hyk
    have hym : y.make_id = d.make_id := congrArg Prod.snd hyk
    refine List.mem_map.mpr ⟨y, List.mem_filter.mpr ⟨hy, ?_⟩, by rw [hyc, hdc]⟩
    rw [hym]
    exact hdm

/-- Applying the same batch a second time through the gap-filling
merge-and-save round changes nothing and counts zero additions. -/
theorem fillGapsMergeSave_idem (df : List DtcRow) (m : String) (batch : List DtcRow) :
    fillGapsMergeSave (fillGapsMergeSave df m batch) m batch = fillGapsMergeSave df m batch ∧
    fillAddedCount (fillGapsMergeSave df m batch) m batch = 0 := by
  have h0 := fillFilterNew_after_round df m batch
  constructor
  · unfold fillGapsMergeSave at h0 ⊢
    rw [h0, List.append_nil]
    exact saveDtcCodes_eq_self (saveDtcCodes_sorted _) (saveDtcCodes_keys_nodup _)
  · unfold fillAddedCount
    rw [h0]
    rfl

/-! ## Lemmas about `replaceFirst` and the merge loop -/

/-- Rows of `l` whose raw key is `k`, in order. -/
def filterKey (k : String × String) (l : List DtcRow) : List DtcRow :=
  l.filter (fun r => keyRaw r = k)

/-- Pure replay of the update branch over a whole batch. -/
def foldUpdates (rows : List DtcRow) (batch : List DtcRow) : List DtcRow :=
  batch.foldl (fun rs b => replaceFirst rs (keyRaw b) b) rows

theorem filterKey_nil (k : String × String) : filterKey k [] = [] := rfl

theorem filterKey_cons (k : String × String) (r : DtcRow) (l : List DtcRow) :
    filterKey k (r :: l) =
      if keyRaw r = k then r :: filterKey k l else filterKey k l := by
  unfold filterKey
  by_cases h : keyRaw r = k <;> simp [h]

theorem filterKey_append (k : String × String) (l₁ l₂ : List DtcRow) :
    filterKey k (l₁ ++ l₂) = filterKey k l₁ ++ filterKey k l₂ := by
  simp [filterKey]

theorem filterKey_eq_nil_of_not_mem {k : String × String} {l : List DtcRow}
    (h : k ∉ l.map keyRaw) : filterKey k l = [] := by
  apply List.filter_eq_nil_iff.mpr
  intro r hr
  simp only [decide_eq_true_eq] at *
  intro hk
  exact h (List.mem_map.mpr ⟨r, hr, hk⟩)

theorem filterKey_ne_nil_of_mem {k : String × String} {l : List DtcRow}
    (h : k ∈ l.map keyRaw) : filterKey k l ≠ [] := by
  intro hnil
  rcases List.mem_map.mp h with ⟨r, hr, hk⟩
  have hmem : r ∈ filterKey k l := List.mem_filter.mpr ⟨hr, by simp [hk]⟩
  rw [hnil] at hmem
  cases hmem

theorem replaceFirst_of_not_mem {l : List DtcRow} {k : String × String} (nr : DtcRow)
    (h : k ∉ l.map keyRaw) : replaceFirst l k nr = l := by
  induction l with
  | nil => rfl
  | cons r rs ih =>
    rw [replaceFirst]
    simp only [List.map_cons, List.mem_cons] at h
    push_neg at h
    rw [if_neg (fun hc => h.1 hc.symm), ih h.2]

/-- `replaceFirst` leaves every position's raw key unchanged. -/
theorem replaceFirst_map_keyRaw {nr : DtcRow} {k : String × String} (hnr : keyRaw nr = k) :
    ∀ l : List DtcRow, (replaceFirst l k nr).map keyRaw = l.map keyRaw := by
  intro l
  induction l with
  | nil => rfl
  | cons r rs ih =>
    rw [replaceFirst]
    by_cases h : keyRaw r = k
    · simp [h, hnr]
    · simp only [if_neg h, List.map_cons, ih]

/-- Replacing under key `k` does not disturb the rows of any other key. -/
theorem filterKey_replaceFirst_ne {nr : DtcRow} {k k' : String × String}
    (hnr : keyRaw nr = k) (hne : k' ≠ k) (l : List DtcRow) :
    filterKey k' (replaceFirst l k nr) = filterKey k' l := by
  induction l with
  | nil => rfl
  | cons r rs ih =>
    rw [replaceFirst]
    by_cases h : keyRaw r = k
    · rw [if_pos h, filterKey_cons, filterKey_cons,
        if_neg (by rw [hnr]; exact fun hc => hne hc.symm),
        if_neg (by rw [h]; exact fun hc => hne hc.symm)]
    · rw [if_neg h, filterKey_cons, filterKey_cons, ih]

/-- After replacing under a present key `k`, the first `k`-row is the new row. -/
theorem filterKey_replaceFirst_head {nr : DtcRow} {k : String × String}
    (hnr : keyRaw nr = k) {l : List DtcRow} (h : k ∈ l.map keyRaw) :
    (filterKey k (replaceFirst l k nr)).head? = some nr := by
  induction l with
  | nil => cases h
  | cons r rs ih =>
    rw [replaceFirst]
    by_cases hr : keyRaw r = k
    · rw [if_pos hr, filterKey_cons, if_pos hnr]
      rfl
    · rw [if_neg hr, filterKey_cons, if_neg hr]
      apply ih
      simp only [List.map_cons, List.mem_cons] at h
      rcases h with h | h
      · exact absurd h.symm hr
      · exact h

/-- Two successive replacements under the same key collapse to the second. -/
theorem replaceFirst_replaceFirst_same {a b : DtcRow} {k : String × String}
    (ha : keyRaw a = k) (l : List DtcRow) :
    replaceFirst (replaceFirst l k a) k b = replaceFirst l k b := by
  induction l with
  | nil => rfl
  | cons r rs ih =>
    rw [replaceFirst]
    by_cases h : keyRaw r = k
    · rw [if_pos h, replaceFirst, if_pos ha, replaceFirst, if_pos h]
    · rw [if_neg h, replaceFirst, if_neg h, replaceFirst, if_neg h, ih]

/-- Replacements under different keys commute. -/
theorem replaceFirst_comm {a b : DtcRow} {k k' : String × String}
    (ha : keyRaw a = k) (hb : keyRaw b = k') (hne : k ≠ k') (l : List DtcRow) :
    replaceFirst (replaceFirst l k a) k' b = replaceFirst (replaceFirst l k' b) k a := by
  induction l with
  | nil => rfl
  | cons r rs ih =>
    rw [replaceFirst, replaceFirst]
    by_cases h : keyRaw r = k
    · have h' : keyRaw r ≠ k' := by rw [h]; exact hne
      rw [if_pos h, if_neg h', replaceFirst, if_neg (ha ▸ hne), replaceFirst, if_pos h]
    · by_cases h' : keyRaw r = k'
      · rw [if_neg h, if_pos h', replaceFirst, if_pos h', replaceFirst,
          if_neg (by rw [hb]; exact fun hc => hne hc.symm)]
      · rw [if_neg h, if_neg h', replaceFirst, replaceFirst, if_neg h', if_neg h, ih]

/-- Replacing the first `k`-row with itself is the identity. -/
theorem replaceFirst_self {k : String × String} {v : DtcRow} {l : List DtcRow}
    (h : (filterKey k l).head? = some v) : replaceFirst l k v = l := by
  induction l with
  | nil => cases h
  | cons r rs ih =>
    rw [filterKey_cons] at h
    rw [replaceFirst]
    by_cases hr : keyRaw r = k
    · rw [if_pos hr] at h
      rw [if_pos hr]
      cases h
      rfl
    · rw [if_neg hr] at h
      rw [if_neg hr, ih h]

/-! ## Characterising one run of the merge loop -/

/-- Keys not occurring in the batch keep their row list untouched. -/
theorem mergeLoop_filterKey_untouched {k : String × String} :
    ∀ (batch : List DtcRow) (rows : List DtcRow) (keys : List (String × String))
      (a u : Nat), k ∉ batch.map keyRaw →
      filterKey k (mergeLoop rows keys a u batch).1 = filterKey k rows := by
  intro batch
  induction batch with
  | nil => intro rows keys a u _; rfl
  | cons b bs ih =>
    intro rows keys a u hk
    simp only [List.map_cons, List.mem_cons] at hk
    push_neg at hk
    rw [mergeLoop]
    split
    · rw [ih _ _ _ _ hk.2, filterKey_replaceFirst_ne rfl hk.1]
    · rw [ih _ _ _ _ hk.2, filterKey_append]
      rw [show filterKey k [b] = [] by
        rw [filterKey_cons, if_neg (fun hc => hk.1 hc.symm)]; rfl]
      rw [List.append_nil]

/-- After one run of the merge loop, the first surviving row of every batch
key is the batch's **last** occurrence of that key. -/
theorem mergeLoop_firstMatch :
    ∀ (batch : List DtcRow) (rows : List DtcRow) (keys : List (String × String))
      (a u : Nat) (k : String × String), keys = rows.map keyRaw →
      k ∈ batch.map keyRaw →
      (filterKey k (mergeLoop rows keys a u batch).1).head? =
        (filterKey k batch).getLast? := by
  intro batch
  induction batch with
  | nil => intro rows keys a u k _ hk; cases hk
  | cons b bs ih =>
    intro rows keys a u k hkeys hk
    rw [mergeLoop, filterKey_cons]
    by_cases hkb : k ∈ bs.map keyRaw
    · -- the tail still writes key k; its last occurrence wins
      have htail : filterKey k bs ≠ [] := filterKey_ne_nil_of_mem hkb
      have hlast : ∀ v : DtcRow, (v :: filterKey k bs).getLast? = (filterKey k bs).getLast? := by
        intro v
        rcases List.exists_cons_of_ne_nil htail with ⟨w, ws, hw⟩
        rw [hw, List.getLast?_cons_cons]
      split
      · next hmem =>
        rw [ih _ _ _ _ k (by rw [replaceFirst_map_keyRaw rfl, hkeys]) hkb]
        by_cases hbk : keyRaw b = k
        · rw [if_pos hbk, hlast]
        · rw [if_neg hbk]
      · next hmem =>
        rw [ih _ _ _ _ k (by simp [hkeys]) hkb]
        by_cases hbk : keyRaw b = k
        · rw [if_pos hbk, hlast]
        · rw [if_neg hbk]
    · -- k occurs only at b itself
      have hbk : keyRaw b = k := by
        simp only [List.map_cons, List.mem_cons] at hk
        rcases hk with h | h
        · exact h.symm
        · exact absurd h hkb
      subst hbk
      rw [if_pos rfl]
      rw [show (filterKey (keyRaw b) bs) = [] from filterKey_eq_nil_of_not_mem hkb]
      split
      · next hmem =>
        rw [mergeLoop_filterKey_untouched bs _ _ _ _ hkb,
          filterKey_replaceFirst_head rfl (hkeys ▸ hmem)]
        simp
      · next hmem =>
        rw [mergeLoop_filterKey_untouched bs _ _ _ _ hkb, filterKey_append]
        rw [show filterKey (keyRaw b) rows = [] from
          filterKey_eq_nil_of_not_mem (fun hc => hmem (hkeys ▸ hc))]
        rw [show filterKey (keyRaw b) [b] = [b] by
          rw [filterKey_cons, if_pos rfl]; rfl]
        simp

/-- When every batch key is already present, the merge loop never inserts:
it is a pure replay of updates, with the `new_codes` counter untouched. -/
theorem mergeLoop_all_present :
    ∀ (batch : List DtcRow) (rows : List DtcRow) (keys : List (String × String))
      (a u : Nat), (∀ b ∈ batch, keyRaw b ∈ keys) →
      mergeLoop rows keys a u batch =
        (foldUpdates rows batch, keys, a, u + batch.length) := by
  intro batch
  induction batch with
  | nil => intro rows keys a u _; rfl
  | cons b bs ih =>
    intro rows keys a u hall
    rw [mergeLoop, if_pos (hall b (List.mem_cons_self _ _))]
    rw [ih _ _ _ _ (fun x hx => hall x (List.mem_cons_of_mem _ hx))]
    have h1 : foldUpdates rows (b :: bs) = foldUpdates (replaceFirst rows (keyRaw b) b) bs :=
      rfl
    have h2 : u + (b :: bs).length = u + 1 + bs.length := by
      simp only [List.length_cons]
      omega
    rw [h1, h2]

/-- An update overwritten later in the batch can be dropped. -/
theorem foldUpdates_absorb {b : DtcRow} :
    ∀ (batch : List DtcRow) (rows : List DtcRow), keyRaw b ∈ batch.map keyRaw →
      foldUpdates (replaceFirst rows (keyRaw b) b) batch = foldUpdates rows batch := by
  intro batch
  induction batch with
  | nil => intro rows h; cases h
  | cons c cs ih =>
    intro rows h
    show foldUpdates (replaceFirst (replaceFirst rows (keyRaw b) b) (keyRaw c) c) cs =
      foldUpdates (replaceFirst rows (keyRaw c) c) cs
    by_cases hc : keyRaw c = keyRaw b
    · rw [hc, replaceFirst_replaceFirst_same rfl]
    · have hmem : keyRaw b ∈ cs.map keyRaw := by
        simp only [List.map_cons, List.mem_cons] at h
        rcases h with h | h
        · exact absurd h.symm hc
        · exact h
      rw [replaceFirst_comm rfl rfl (fun hx => hc hx.symm)]
      exact ih _ hmem

/-- Replaying a batch of updates equals replaying only the last occurrence
of every key. -/
theorem foldUpdates_keepLast :
    ∀ (batch : List DtcRow) (rows : List DtcRow),
      foldUpdates rows batch = foldUpdates rows (keepLast batch) := by
  intro batch
  induction batch with
  | nil => intro rows; rfl
  | cons b bs ih =>
    intro rows
    rw [keepLast]
    split
    · next hany =>
      have hmem : keyRaw b ∈ bs.map keyRaw := by
        rcases List.any_eq_true.mp hany with ⟨x, hx, hk⟩
        exact List.mem_map.mpr ⟨x, hx, of_decide_eq_true hk⟩
      show foldUpdates (replaceFirst rows (keyRaw b) b) bs = foldUpdates rows (keepLast bs)
      rw [foldUpdates_absorb bs _ hmem]
      exact ih rows
    · show foldUpdates (replaceFirst rows (keyRaw b) b) bs =
        foldUpdates (replaceFirst rows (keyRaw b) b) (keepLast bs)
      exact ih _

/-- Replaying updates that each rewrite the first row of their key with the
very row already stored there is the identity. -/
theorem foldUpdates_fixed :
    ∀ (batch : List DtcRow) (rows : List DtcRow),
      (∀ b ∈ batch, (filterKey (keyRaw b) rows).head? = some b) →
      foldUpdates rows batch = rows := by
  intro batch
  induction batch with
  | nil => intro rows _; rfl
  | cons b bs ih =>
    intro rows hfix
    show foldUpdates (replaceFirst rows (keyRaw b) b) bs = rows
    rw [replaceFirst_self (hfix b (List.mem_cons_self _ _))]
    exact ih rows (fun x hx => hfix x (List.mem_cons_of_mem _ hx))

/-- A survivor of `keepLast` is the last occurrence of its key in the batch. -/
theorem keepLast_getLast {batch : List DtcRow} : ∀ {b : DtcRow}, b ∈ keepLast batch →
    (filterKey (keyRaw b) batch).getLast? = some b := by
  induction batch with
  | nil => intro b hb; cases hb
  | cons c cs ih =>
    intro b hb
    rw [keepLast] at hb
    rw [filterKey_cons]
    split at hb
    · next hany =>
      have hmem : keyRaw b ∈ cs.map keyRaw := by
        have : b ∈ cs := (keepLast_sublist cs).subset hb
        exact List.mem_map.mpr ⟨b, this, rfl⟩
      have htail : filterKey (keyRaw b) cs ≠ [] := filterKey_ne_nil_of_mem hmem
      by_cases hc : keyRaw c = keyRaw b
      · rw [if_pos hc]
        rcases List.exists_cons_of_ne_nil htail with ⟨w, ws, hw⟩
        rw [hw, List.getLast?_cons_cons, ← hw, ih hb]
      · rw [if_neg hc]
        exact ih hb
    · next hany =>
      rcases List.mem_cons.mp hb with rfl | hb'
      · rw [if_pos rfl]
        rw [show filterKey (keyRaw b) cs = [] from ?_]
        · rfl
        · apply filterKey_eq_nil_of_not_mem
          intro hc
          rcases List.mem_map.mp hc with ⟨x, hx, hk⟩
          exact hany (List.any_eq_true.mpr ⟨x, hx, decide_eq_true hk⟩)
      · have hbc : keyRaw c ≠ keyRaw b := by
          intro hc
          have : b ∈ cs := (keepLast_sublist cs).subset hb'
          exact hany (List.any_eq_true.mpr ⟨b, this, decide_eq_true hc.symm⟩)
        rw [if_neg hbc]
        exact ih hb'

/-! ## Stability of the final sort with respect to raw keys -/

theorem mergeSortRel_of_keyRaw_eq {a b : DtcRow} (h : keyRaw a = keyRaw b) :
    mergeSortRel a b := by
  unfold mergeSortRel
  have h1 : a.code = b.code := congrArg Prod.fst h
  have h2 : a.make_id = b.make_id := congrArg Prod.snd h
  rw [h1, h2]
  exact pairLe_refl _

theorem filterKey_orderedInsert (k : String × String) (a : DtcRow) (l : List DtcRow) :
    filterKey k (List.orderedInsert mergeSortRel a l) =
      if keyRaw a = k then a :: filterKey k l else filterKey k l := by
  induction l with
  | nil =>
    by_cases h : keyRaw a = k <;>
      simp [List.orderedInsert, filterKey_cons, filterKey_nil, h]
  | cons b l ih =>
    rw [List.orderedInsert]
    by_cases hle : mergeSortRel a b
    · rw [if_pos hle, filterKey_cons, filterKey_cons]
    · rw [if_neg hle, filterKey_cons, ih, filterKey_cons]
      by_cases hak : keyRaw a = k
      · have hbk : keyRaw b ≠ k := by
          intro hbk
          exact hle (mergeSortRel_of_keyRaw_eq (hak.trans hbk.symm))
        simp [hak, hbk]
      · by_cases hbk : keyRaw b = k <;> simp [hak, hbk]

/-- The merge engine's final sort is stable: within one raw key the row
order is preserved. -/
theorem filterKey_insertionSort (k : String × String) (l : List DtcRow) :
    filterKey k (List.insertionSort mergeSortRel l) = filterKey k l := by
  induction l with
  | nil => rfl
  | cons b l ih =>
    rw [List.insertionSort, filterKey_orderedInsert, ih, filterKey_cons]

/-! ## Idempotence of `merge_dtc_codes` -/

/-- Applying the same incoming batch a second time through
`merge_to_json.merge_dtc_codes` leaves the persisted rows unchanged and
counts zero new codes. -/
theorem mergeDtcCodes_idem (D B : List DtcRow) :
    (mergeDtcCodes (mergeDtcCodes D B).rows B).rows = (mergeDtcCodes D B).rows ∧
    (mergeDtcCodes (mergeDtcCodes D B).rows B).added = 0 := by
  generalize hrows1 : (mergeDtcCodes D B).rows = rows1
  have hform : rows1 = List.insertionSort mergeSortRel (mergeLoop D (D.map keyRaw) 0 0 B).1 := by
    rw [← hrows1]
    rfl
  have hfirst : ∀ k ∈ B.map keyRaw,
      (filterKey k rows1).head? = (filterKey k B).getLast? := by
    intro k hk
    rw [hform, filterKey_insertionSort]
    exact mergeLoop_firstMatch B D _ 0 0 k rfl hk
  have hmem : ∀ b ∈ B, keyRaw b ∈ rows1.map keyRaw := by
    intro b hb
    have hkmem : keyRaw b ∈ B.map keyRaw := List.mem_map.mpr ⟨b, hb, rfl⟩
    have h1 := hfirst _ hkmem
    have h2 : filterKey (keyRaw b) B ≠ [] := filterKey_ne_nil_of_mem hkmem
    have h3 : filterKey (keyRaw b) rows1 ≠ [] := by
      intro hnil
      rw [hnil] at h1
      exact h2 (List.getLast?_eq_none_iff.mp h1.symm)
    rcases List.exists_cons_of_ne_nil h3 with ⟨w, ws, hw⟩
    have hwmem : w ∈ filterKey (keyRaw b) rows1 := by
      rw [hw]
      exact List.mem_cons_self _ _
    rcases List.mem_filter.mp hwmem with ⟨hwrows, hwk⟩
    exact List.mem_map.mpr ⟨w, hwrows, of_decide_eq_true hwk⟩
  have hsorted : rows1.Sorted mergeSortRel := by
    rw [hform]
    exact List.sorted_insertionSort _ _
  have hrun2 := mergeLoop_all_present B rows1 (rows1.map keyRaw) 0 0 hmem
  have hfold : foldUpdates rows1 B = rows1 := by
    rw [foldUpdates_keepLast]
    apply foldUpdates_fixed
    intro b hb
    have hbB : b ∈ B := (keepLast_sublist B).subset hb
    rw [hfirst _ (List.mem_map.mpr ⟨b, hbB, rfl⟩)]
    exact keepLast_getLast hb
  constructor
  · show List.insertionSort mergeSortRel (mergeLoop rows1 (rows1.map keyRaw) 0 0 B).1 = rows1
    rw [hrun2]
    show List.insertionSort mergeSortRel (foldUpdates rows1 B) = rows1
    rw [hfold]
    exact List.Sorted.insertionSort_eq hsorted
  · show (mergeLoop rows1 (rows1.map keyRaw) 0 0 B).2.2.1 = 0
    rw [hrun2]

/-! ## Claim C1 -/

/-- C1: merge is idempotent.  For every dataset `D`, manufacturer `m` and
incoming batch `B`, both persisting merge flows — the gap-filling round
(insert rows whose key is absent, then `save_dtc_codes`' sort and
de-duplication keyed by `(code, make_id)` keeping the last occurrence) and
`merge_to_json.merge_dtc_codes` — produce, on a second application of the
same batch, exactly the dataset of the first application, with zero rows
counted as "added" on the repeat run. -/
theorem c1_merge_idempotent (D B : List DtcRow) (m : String) :
    (fillGapsMergeSave (fillGapsMergeSave D m B) m B = fillGapsMergeSave D m B ∧
      fillAddedCount (fillGapsMergeSave D m B) m B = 0) ∧
    ((mergeDtcCodes (mergeDtcCodes D B).rows B).rows = (mergeDtcCodes D B).rows ∧
      (mergeDtcCodes (mergeDtcCodes D B).rows B).added = 0) :=
  ⟨fillGapsMergeSave_idem D m B, mergeDtcCodes_idem D B⟩

/-! ## Claim C2 -/

/-- C2 (amended): after the `save_dtc_codes` persisting pass, no two
distinct records share the exact raw `(code, make_id)` pair.  (Uniqueness
holds for the raw key only; see the counterexample for the case-insensitive
key claimed by the specification.) -/
theorem c2_identity_uniqueness_raw_key (df : List DtcRow) :
    (saveDtcCodes df).Pairwise (fun a b => keyRaw a ≠ keyRaw b) :=
  saveDtcCodes_keys_nodup df

/-- A record with the code in uppercase and a second record differing only
in the letter case of the code. -/
def rowCodeUpper : DtcRow :=
  ⟨"P0420", "toyota", "Catalyst System Efficiency Below Threshold",
    "", "", "", "", "", "", "", "All"⟩

def rowCodeLower : DtcRow :=
  ⟨"p0420", "toyota", "different description", "", "", "", "", "", "", "", "All"⟩

/-- C2 counterexample: the persisting pass keeps both records that differ
only in the letter case of the code, so the persisted dataset contains two
distinct records sharing (code uppercased, ownerId lowercased) — the claim
as stated is false. -/
theorem c2_counterexample :
    saveDtcCodes [rowCodeUpper, rowCodeLower] = [rowCodeUpper, rowCodeLower] ∧
    keyCi rowCodeUpper = keyCi rowCodeLower ∧
    rowCodeUpper ≠ rowCodeLower := by
  refine ⟨?_, ?_, ?_⟩ <;> decide

/-! ## `fill_dtc_gaps.cleanup_powertrain_data` and `normalize_powertrain` -/

/-- The removal mask of the cleanup pass:
`df['code'].str.match(r'^[PBCU][0-9]', na=False)` — an anchored *prefix*
match: first character one of `PBCU` (uppercase only), second a decimal
digit; nothing further is checked. -/
def validCodeMask (code : String) : Bool :=
  match code.data with
  | c0 :: c1 :: _ =>
    (c0 = 'P' || c0 = 'B' || c0 = 'C' || c0 = 'U') && c1.isDigit
  | _ => false

/-- The closed powertrain vocabulary (`VALID_TYPES`). -/
def VALID_TYPES : List String :=
  ["Petrol", "Diesel", "Petrol Hybrid", "Diesel Hybrid", "Plug-in Hybrid", "Electric", "All"]

/-- The synonym table (`type_mapping`). -/
def typeMapping : List (String × String) :=
  [("petrol", "Petrol"), ("diesel", "Diesel"), ("electric", "Electric"),
   ("hybrid", "Petrol Hybrid"), ("petrol hybrid", "Petrol Hybrid"),
   ("diesel hybrid", "Diesel Hybrid"), ("plug-in hybrid", "Plug-in Hybrid"),
   ("plugin hybrid", "Plug-in Hybrid"), ("phev", "Plug-in Hybrid"),
   ("bev", "Electric"), ("ev", "Electric"), ("hev", "Petrol Hybrid"),
   ("all", "All"), ("automatic", "All")]

/-- `re.sub(r'(?i)gasoline', 'Petrol', s)`: global case-insensitive
replacement, scanning left to right without overlap. -/
def replGasoline : List Char → List Char
  | c0 :: c1 :: c2 :: c3 :: c4 :: c5 :: c6 :: c7 :: rest =>
    if [c0, c1, c2, c3, c4, c5, c6, c7].map pyLowerChar = "gasoline".data then
      'P' :: 'e' :: 't' :: 'r' :: 'o' :: 'l' :: replGasoline rest
    else c0 :: replGasoline (c1 :: c2 :: c3 :: c4 :: c5 :: c6 :: c7 :: rest)
  | l => l

/-- `fill_dtc_gaps.normalize_powertrain` (the inner function of
`cleanup_powertrain_data`).  A pandas cell that may be NaN is an
`Option String`. -/
def normalize_powertrain (value : Option String) : String :=
  match value with
  | none => "All"
  | some v =>
    if v = "" then "All"
    else
      let cleaned := pyStrip v
      let cleaned :=
        if pyInStr "gasoline" (pyLower cleaned) then ⟨replGasoline cleaned.data⟩
        else cleaned
      if pyInStr "|" cleaned then "All"
      else if pyInStr "/" cleaned then "All"
      else
        match typeMapping.lookup (pyLower cleaned) with
        | some m => m
        | none => if cleaned ∈ VALID_TYPES then cleaned else "All"

/-- Per-row action of the powertrain normalisation pass. -/
def normRow (r : DtcRow) : DtcRow :=
  { r with powertrain_type := normalize_powertrain (some r.powertrain_type) }

/-- `cleanup_powertrain_data`: optionally drop rows whose code fails the
prefix mask (counting them), then normalise every `powertrain_type`.
Returns the new rows and the removed count. -/
def cleanupPowertrainData (df : List DtcRow) (removeInvalidCodes : Bool) :
    List DtcRow × Nat :=
  let df1 := if removeInvalidCodes then df.filter (fun r => validCodeMask r.code) else df
  let removed :=
    if removeInvalidCodes then (df.filter (fun r => ¬ validCodeMask r.code)).length else 0
  (df1.map normRow, removed)

/-! ## Properties of the normaliser and the cleanup pass -/

/-- Every value of the closed vocabulary is a fixed point of the normaliser. -/
theorem normalize_fixed : ∀ s ∈ VALID_TYPES, normalize_powertrain (some s) = s := by
  decide

theorem lookup_mem_values : ∀ {l : List (String × String)} {x m : String},
    l.lookup x = some m → m ∈ l.map Prod.snd := by
  intro l
  induction l with
  | nil => intro x m h; cases h
  | cons p ps ih =>
    intro x m h
    rcases p with ⟨k, v⟩
    rw [List.lookup] at h
    cases hbeq : (x == k)
    · rw [hbeq] at h
      exact List.mem_cons_of_mem _ (ih h)
    · rw [hbeq] at h
      injection h with h
      subst h
      simp

theorem typeMapping_lookup_mem {x m : String} (h : typeMapping.lookup x = some m) :
    m ∈ VALID_TYPES := by
  have hsub : ∀ y ∈ typeMapping.map Prod.snd, y ∈ VALID_TYPES := by decide
  exact hsub m (lookup_mem_values h)

/-- The tail of the normaliser (after strip and gasoline replacement)
lands in the closed vocabulary whatever the cleaned value is. -/
theorem normalizeCore_mem (cleaned : String) :
    (if pyInStr "|" cleaned = true then "All"
     else if pyInStr "/" cleaned = true then "All"
     else
       match typeMapping.lookup (pyLower cleaned) with
       | some m => m
       | none => if cleaned ∈ VALID_TYPES then cleaned else "All") ∈ VALID_TYPES := by
  split
  · decide
  · split
    · decide
    · split
      · next m hm => exact typeMapping_lookup_mem hm
      · split
        · next h => exact h
        · decide

/-- The normaliser always lands in the closed powertrain vocabulary. -/
theorem normalize_powertrain_mem (v : Option String) :
    normalize_powertrain v ∈ VALID_TYPES := by
  rcases v with _ | s
  · decide
  · rw [normalize_powertrain]
    dsimp only
    split
    · decide
    · split
      · exact normalizeCore_mem _
      · exact normalizeCore_mem _

/-- Normalising twice equals normalising once. -/
theorem normalize_powertrain_idem (v : Option String) :
    normalize_powertrain (some (normalize_powertrain v)) = normalize_powertrain v :=
  normalize_fixed _ (normalize_powertrain_mem v)

theorem normRow_idem (r : DtcRow) : normRow (normRow r) = normRow r := by
  unfold normRow
  simp only [normalize_powertrain_idem]

theorem normRow_code (r : DtcRow) : (normRow r).code = r.code := rfl

theorem filter_length_partition (p : DtcRow → Bool) (l : List DtcRow) :
    (l.filter (fun r => ¬ p r)).length + (l.filter p).length = l.length := by
  induction l with
  | nil => rfl
  | cons r rs ih =>
    by_cases h : p r <;> simp [List.filter_cons, h, ← ih] <;> omega

/-- The cleanup pass is a no-op on its own output. -/
theorem cleanupPowertrainData_idem (df : List DtcRow) (b : Bool) :
    (cleanupPowertrainData (cleanupPowertrainData df b).1 b).1 =
      (cleanupPowertrainData df b).1 := by
  have hmap : ∀ l : List DtcRow, (l.map normRow).map normRow = l.map normRow := by
    intro l
    rw [List.map_map]
    exact List.map_congr_left (fun r _ => normRow_idem r)
  cases b
  · show ((df.map normRow).map normRow) = df.map normRow
    exact hmap df
  · show (((df.filter (fun r => validCodeMask r.code)).map normRow).filter
        (fun r => validCodeMask r.code)).map normRow =
      (df.filter (fun r => validCodeMask r.code)).map normRow
    rw [List.filter_eq_self.mpr, hmap]
    intro r hr
    rcases List.mem_map.mp hr with ⟨r0, hr0, rfl⟩
    rw [normRow_code]
    exact (List.mem_filter.mp hr0).2

/-! ## Claim C5 -/

/-- The specification's full code-format regex
`^[PBCU][0-3][0-9A-F]{3}[A-Z]?$`, case-insensitive (modelled by uppercasing
first).  Stated from the spec for comparison with the prefix mask the
cleanup pass actually enforces. -/
def specCodeFormat (code : String) : Bool :=
  match (pyUpper code).data with
  | c0 :: c1 :: c2 :: c3 :: c4 :: rest =>
    (c0 = 'P' || c0 = 'B' || c0 = 'C' || c0 = 'U') &&
    (c1 = '0' || c1 = '1' || c1 = '2' || c1 = '3') &&
    (c2.isDigit || ('A' ≤ c2 && c2 ≤ 'F')) &&
    (c3.isDigit || ('A' ≤ c3 && c3 ≤ 'F')) &&
    (c4.isDigit || ('A' ≤ c4 && c4 ≤ 'F')) &&
    (match rest with
     | [] => true
     | [c5] => decide ('A' ≤ c5) && decide (c5 ≤ 'Z')
     | _ => false)
  | _ => false

/-- C5 (amended): after `cleanup_powertrain_data` with invalid-code removal
enabled, every remaining record's code matches the prefix pattern
`^[PBCU][0-9]` (uppercase letter, then one decimal digit — not the full
format of the specification), and the removed rows are counted, never
silently dropped: removed + kept = total. -/
theorem c5_format_invariant_amended (df : List DtcRow) :
    (∀ r ∈ (cleanupPowertrainData df true).1, validCodeMask r.code = true) ∧
    (cleanupPowertrainData df true).2 + (cleanupPowertrainData df true).1.length =
      df.length := by
  constructor
  · intro r hr
    rcases List.mem_map.mp hr with ⟨r0, hr0, rfl⟩
    rw [normRow_code]
    exact (List.mem_filter.mp hr0).2
  · show (df.filter (fun r => ¬ validCodeMask r.code)).length +
      ((df.filter (fun r => validCodeMask r.code)).map normRow).length = df.length
    rw [List.length_map]
    exact filter_length_partition _ df

/-- Witness for C5 at a concrete dataset. -/
theorem c5_format_invariant_amended_witness :
    rowCodeUpper ∈ (cleanupPowertrainData [rowCodeUpper] true).1 ∧
    validCodeMask rowCodeUpper.code = true :=
  ⟨by decide, (c5_format_invariant_amended [rowCodeUpper]).1 rowCodeUpper (by decide)⟩

/-- A record whose code `P999` passes the cleanup's prefix mask but fails
the specification's full format regex. -/
def rowShortCode : DtcRow :=
  ⟨"P999", "toyota", "short code kept by cleanup", "", "", "", "", "", "", "", "All"⟩

/-- C5 counterexample: the cleanup pass keeps a record whose code does not
match `^[PBCU][0-3][0-9A-F]{3}[A-Z]?$`, so the claimed format invariant is
false as stated. -/
theorem c5_counterexample :
    (cleanupPowertrainData [rowShortCode] true).1 = [rowShortCode] ∧
    specCodeFormat rowShortCode.code = false := by
  refine ⟨?_, ?_⟩ <;> decide

/-! ## Claim C8 -/

/-- C8: the normalisation pass is idempotent: `normalize(normalize(r)) =
normalize(r)` for every cell value (including the NaN/empty cases),
`normalize_powertrain` always returns a member of the closed powertrain set
and maps each member to itself, and running the whole cleanup pass on
already-cleaned data is a no-op. -/
theorem c8_normalizer_idempotence (v : Option String) (df : List DtcRow) (b : Bool) :
    normalize_powertrain (some (normalize_powertrain v)) = normalize_powertrain v ∧
    normalize_powertrain v ∈ VALID_TYPES ∧
    (cleanupPowertrainData (cleanupPowertrainData df b).1 b).1 =
      (cleanupPowertrainData df b).1 :=
  ⟨normalize_powertrain_idem v, normalize_powertrain_mem v,
    cleanupPowertrainData_idem df b⟩

/-! ## `quick_import_codes` and the keyword detectors -/

def pyStartsWith (pre s : String) : Bool := pre.data.isPrefixOf s.data

/-- `system_keywords` of `detect_system_from_code` (dict insertion order). -/
def systemKeywords : List (String × List String) :=
  [("Fuel System", ["fuel", "injector", "pump", "rail pressure", "lean", "rich"]),
   ("Ignition", ["ignition", "misfire", "spark", "coil"]),
   ("Emissions", ["catalyst", "catalytic", "o2", "oxygen", "evap", "egr", "emission",
     "nox", "dpf", "particulate"]),
   ("Transmission", ["transmission", "gear", "shift", "torque converter", "clutch", "tcm"]),
   ("Engine", ["engine", "cylinder", "crankshaft", "camshaft", "vvt", "timing", "knock",
     "compression"]),
   ("Cooling", ["coolant", "thermostat", "radiator", "temperature", "cooling"]),
   ("Intake/Exhaust", ["intake", "exhaust", "manifold", "throttle", "maf", "map", "turbo",
     "boost"]),
   ("SRS", ["airbag", "restraint", "srs", "occupant"]),
   ("ABS", ["abs", "brake", "wheel speed", "traction", "stability", "esp", "dsc"]),
   ("Steering", ["steering", "power steering", "eps"]),
   ("HVAC", ["hvac", "climate", "air condition", "a/c", "heater", "blower"]),
   ("Lighting", ["lamp", "light", "headlight", "bulb"]),
   ("Network", ["can", "bus", "communication", "network", "module"]),
   ("Hybrid System", ["hybrid", "hv battery", "inverter", "regenerat"]),
   ("EV Battery", ["battery", "cell", "soc", "charging", "high voltage"]),
   ("EV Motor", ["motor", "drive unit", "traction motor"])]

def detect_system_from_code (code description : String) : String :=
  let descLower := pyLower description
  match systemKeywords.find? (fun p => p.2.any (fun kw => pyInStr kw descLower)) with
  | some p => p.1
  | none =>
    if pyStartsWith "P0" code || pyStartsWith "P1" code ||
        pyStartsWith "P2" code || pyStartsWith "P3" code then "Engine"
    else if pyStartsWith "B" code then "Body"
    else if pyStartsWith "C" code then "Chassis"
    else if pyStartsWith "U" code then "Network Communication"
    else "Engine"

def detect_severity_from_code (_code description : String) : String :=
  let descLower := pyLower description
  if ["airbag", "restraint", "brake failure", "steering", "fuel leak"].any
      (fun kw => pyInStr kw descLower) then "Critical"
  else if ["misfire", "catalyst damage", "overheat", "transmission", "abs",
      "fuel system"].any (fun kw => pyInStr kw descLower) then "High"
  else if ["intermittent", "lamp", "light", "sensor range", "hvac"].any
      (fun kw => pyInStr kw descLower) then "Low"
  else "Medium"

def detect_powertrain_from_code (_code description : String) : String :=
  let descLower := pyLower description
  if ["glow plug", "dpf", "particulate", "egr", "adblue", "def", "urea", "nox",
      "turbo"].any (fun kw => pyInStr kw descLower) then "Diesel"
  else if ["high voltage", "hv battery", "charging", "inverter", "traction motor",
      "dc/dc"].any (fun kw => pyInStr kw descLower) then "Electric"
  else if ["hybrid", "regenerat", "motor generator", "mg1", "mg2"].any
      (fun kw => pyInStr kw descLower) then "Petrol Hybrid"
  else if ["spark", "ignition coil", "knock sensor", "catalytic converter"].any
      (fun kw => pyInStr kw descLower) then "Petrol"
  else "All"

/-- One imported row of `quick_import_codes` (the later definition in
`fill_dtc_gaps.py`, which shadows the earlier one): smart defaults, raw code
kept as-is, detectors run on the uppercased code. -/
def quickImportRow (make_id : String) (cd : String × String) : DtcRow :=
  let codeUpper := pyUpper cd.1
  { code := cd.1
    make_id := make_id
    description := cd.2
    detailed_description := "Standard OBD-II code: " ++ cd.2
    system := detect_system_from_code codeUpper cd.2
    severity := detect_severity_from_code codeUpper cd.2
    common_causes := "[]"
    symptoms := "[]"
    applicable_models := "All"
    applicable_years := "1996+"
    powertrain_type := detect_powertrain_from_code codeUpper cd.2 }

def quick_import_codes (codesToImport : List (String × String)) (make_id : String) :
    List DtcRow :=
  codesToImport.map (quickImportRow make_id)

/-! ## `import_all_generic_codes` -/

def SAFE_GENERIC_PREFIXES : List String := ["P0", "B0", "C0", "U0"]

/-- First two characters of the uppercased code (`code_upper[:2]`,
`''` when shorter). -/
def codePrefix2 (code : String) : String := ⟨(pyUpper code).data.take 2⟩

/-- The reference entries selected by `import_all_generic_codes`: skip codes
already present (uppercased) under **any** owner, keep only the safe generic
prefixes. -/
def genericCodesToImport (df : List DtcRow) (referenceCodes : List (String × String)) :
    List (String × String) :=
  let allExisting := df.map (fun r => pyUpper r.code)
  referenceCodes.filter (fun cd =>
    ¬ pyUpper cd.1 ∈ allExisting ∧ codePrefix2 cd.1 ∈ SAFE_GENERIC_PREFIXES)

/-- `import_all_generic_codes`: quick-import every selected reference entry
under the `'generic'` owner and append to the dataset. -/
def importAllGenericCodes (df : List DtcRow) (referenceCodes : List (String × String)) :
    List DtcRow :=
  df ++ quick_import_codes (genericCodesToImport df referenceCodes) "generic"

/-! ## Claim C10 -/

/-- C10: the generic import de-duplicates globally, not per owner: the
result is the dataset plus quick-imported rows; every inserted row is owned
by `'generic'`, its uppercased code has one of the safe prefixes
`P0/B0/C0/U0`, and its uppercased code did not occur in the dataset under
any owner — so a code present for a specific manufacturer is never also
imported under `'generic'`, even though its (code, 'generic') key is absent. -/
theorem c10_generic_import_global_dedup (df : List DtcRow)
    (referenceCodes : List (String × String)) :
    importAllGenericCodes df referenceCodes =
      df ++ quick_import_codes (genericCodesToImport df referenceCodes) "generic" ∧
    ∀ r ∈ quick_import_codes (genericCodesToImport df referenceCodes) "generic",
      r.make_id = "generic" ∧
      codePrefix2 r.code ∈ SAFE_GENERIC_PREFIXES ∧
      pyUpper r.code ∉ df.map (fun d => pyUpper d.code) := by
  refine ⟨rfl, ?_⟩
  intro r hr
  rcases List.mem_map.mp hr with ⟨cd, hcd, rfl⟩
  rcases List.mem_filter.mp hcd with ⟨_, hcond⟩
  simp only [decide_eq_true_eq, Bool.and_eq_true, decide_not, Bool.not_eq_true',
    Bool.not_eq_false] at hcond
  refine ⟨rfl, ?_, ?_⟩
  · exact hcond.2
  · intro hmem
    have h1 : (quickImportRow "generic" cd).code = cd.1 := rfl
    rw [h1] at hmem
    exact absurd hmem hcond.1

/-- A small reference table: one new generic code, one code already present
in the dataset under a specific manufacturer, one non-DTC entry. -/
def refsExample : List (String × String) :=
  [("P0171", "System Too Lean Bank 1"),
   ("P0420", "Catalyst System Efficiency Below Threshold"),
   ("X123", "not a diagnostic code")]

/-- Witness for C10 at a concrete dataset and reference table: `P0171` is
imported under `'generic'`; `P0420`, already present for `toyota`, is not. -/
theorem c10_generic_import_global_dedup_witness :
    quickImportRow "generic" ("P0171", "System Too Lean Bank 1") ∈
      quick_import_codes (genericCodesToImport [rowCodeUpper] refsExample) "generic" ∧
    (quickImportRow "generic" ("P0171", "System Too Lean Bank 1")).make_id = "generic" ∧
    codePrefix2 (quickImportRow "generic" ("P0171", "System Too Lean Bank 1")).code ∈
      SAFE_GENERIC_PREFIXES ∧
    pyUpper (quickImportRow "generic" ("P0171", "System Too Lean Bank 1")).code ∉
      [rowCodeUpper].map (fun d => pyUpper d.code) :=
  ⟨by decide,
    (c10_generic_import_global_dedup [rowCodeUpper] refsExample).2 _ (by decide)⟩

/-! ## `enrich_existing_codes`: field-level update application

The enrichment loop updates a stored row field-by-field with
`if 'field' in enriched_data: df.at[idx, 'field'] = enriched_data['field']`.
A field absent from the enriched mapping is `none`; a field present but
empty is `some ""`. -/

structure EnrichedData where
  detailed_description : Option String
  system : Option String
  severity : Option String
  common_causes : Option String
  symptoms : Option String
  applicable_models : Option String
  applicable_years : Option String
  powertrain_type : Option String
deriving DecidableEq, Repr

/-- The per-row update of `enrich_existing_codes` (lines 1570–1596):
each of the eight descriptive fields is overwritten exactly when its key is
present in the enriched mapping; `code`, `make_id` and `description` are
never touched. -/
def applyEnrichUpdate (row : DtcRow) (e : EnrichedData) : DtcRow :=
  { row with
    detailed_description := e.detailed_description.getD row.detailed_description
    system := e.system.getD row.system
    severity := e.severity.getD row.severity
    common_causes := e.common_causes.getD row.common_causes
    symptoms := e.symptoms.getD row.symptoms
    applicable_models := e.applicable_models.getD row.applicable_models
    applicable_years := e.applicable_years.getD row.applicable_years
    powertrain_type := e.powertrain_type.getD row.powertrain_type }

/-! ## Claim C6 -/

/-- C6 (amended): in the enrichment flow, a field *absent* from the incoming
enriched record never changes the stored value, and the identity fields
`code`, `make_id`, `description` are never modified; a field *present* in
the incoming record overwrites the stored value even when it is the empty
string.  (In `merge_dtc_codes`' replace branch the incoming row replaces
the stored row wholesale — see the counterexample.) -/
theorem c6_replace_policy_amended (row : DtcRow) (e : EnrichedData) :
    (applyEnrichUpdate row e).code = row.code ∧
    (applyEnrichUpdate row e).make_id = row.make_id ∧
    (applyEnrichUpdate row e).description = row.description ∧
    (e.detailed_description = none →
      (applyEnrichUpdate row e).detailed_description = row.detailed_description) ∧
    (e.system = none → (applyEnrichUpdate row e).system = row.system) ∧
    (e.severity = none → (applyEnrichUpdate row e).severity = row.severity) ∧
    (e.common_causes = none → (applyEnrichUpdate row e).common_causes = row.common_causes) ∧
    (e.symptoms = none → (applyEnrichUpdate row e).symptoms = row.symptoms) ∧
    (e.applicable_models = none →
      (applyEnrichUpdate row e).applicable_models = row.applicable_models) ∧
    (e.applicable_years = none →
      (applyEnrichUpdate row e).applicable_years = row.applicable_years) ∧
    (e.powertrain_type = none →
      (applyEnrichUpdate row e).powertrain_type = row.powertrain_type) ∧
    (∀ s, e.detailed_description = some s →
      (applyEnrichUpdate row e).detailed_description = s) := by
  refine ⟨rfl, rfl, rfl, ?_, ?_, ?_, ?_, ?_, ?_, ?_, ?_, ?_⟩ <;>
    first
      | (intro h; simp [applyEnrichUpdate, h])
      | (intro s h; simp [applyEnrichUpdate, h])

/-- A stored record carrying a non-empty detailed description. -/
def storedDetailedRow : DtcRow :=
  ⟨"P0100", "bmw", "MAF circuit", "Important hand-written detailed text",
    "Engine", "High", "[]", "[]", "All", "1996+", "All"⟩

/-- An incoming record with the same raw key whose optional fields are all
absent (normalised to the empty string by the merge). -/
def incomingBlankRow : DtcRow :=
  ⟨"P0100", "bmw", "MAF circuit", "", "", "", "", "", "", "", ""⟩

/-- An enriched mapping whose keys are all absent. -/
def emptyEnrichedData : EnrichedData :=
  ⟨none, none, none, none, none, none, none, none⟩

/-- Witness for C6 at a concrete row and enriched mapping. -/
theorem c6_replace_policy_amended_witness :
    (applyEnrichUpdate storedDetailedRow emptyEnrichedData).detailed_description =
      storedDetailedRow.detailed_description ∧
    (applyEnrichUpdate storedDetailedRow emptyEnrichedData).code = storedDetailedRow.code :=
  ⟨(c6_replace_policy_amended storedDetailedRow emptyEnrichedData).2.2.2.1 rfl,
    (c6_replace_policy_amended storedDetailedRow emptyEnrichedData).1⟩

/-- C6 counterexample: under `merge_dtc_codes`' replace branch, an incoming
row with an absent (hence empty) `detailed_description` *does* blank out the
stored non-empty value — the claim that empty/absent incoming fields never
blank out existing data is false as stated. -/
theorem c6_counterexample :
    (mergeDtcCodes [storedDetailedRow] [incomingBlankRow]).rows = [incomingBlankRow] ∧
    incomingBlankRow.detailed_description = "" ∧
    storedDetailedRow.detailed_description = "Important hand-written detailed text" := by
  refine ⟨?_, rfl, rfl⟩
  decide

/-! ## `import_scraped_dtc_codes` (scraped-import update mode)

The scraped CSV rows carry at least `code`, `make_id`, `description`.
`existing_keys` is a dict from `(code.upper(), make_id.lower())` to the row
index, built in order so a later duplicate key wins.

The conditional-replace comparison in the source is
`len(scraped_desc) > len(existing_desc) * 1.2`.  This is modelled exactly by
`5 * len_s > 6 * len_e`: in IEEE double arithmetic `n * 1.2` rounds to the
integer `6n/5` exactly whenever `6n/5` is an integer, and otherwise lies
within `~1e-15·n` of `6n/5` while the nearest integers are at least `0.2`
away — far below any feasible string length where this could flip. -/

structure ScrapedRow where
  code : String
  make_id : String
  description : String
deriving DecidableEq, Repr

/-- Index assigned by the `existing_keys` dict: the **last** row whose
case-normalised key matches. -/
def lastIdxOfKey : List DtcRow → String × String → Option Nat
  | [], _ => none
  | r :: rs, k =>
    match lastIdxOfKey rs k with
    | some i => some (i + 1)
    | none => if keyCi r = k then some 0 else none

/-- `df.loc[idx, 'description']` (defaulting for an out-of-range index,
which never occurs for indices produced by `lastIdxOfKey`). -/
def descAt (df : List DtcRow) (i : Nat) : String :=
  ((df.get? i).map (fun r => r.description)).getD ""

/-- Python `len(scraped) > len(existing) * 1.2`, modelled exactly. -/
def materiallyLonger (scraped existing : String) : Bool :=
  5 * scraped.length > 6 * existing.length

structure ScrapedClassification where
  newCodes : List (String × String)
  updates : List (Nat × String × String)
  skipped : Nat
deriving DecidableEq, Repr

/-- The classification loop of `import_scraped_dtc_codes`: each scraped row
with an unseen key becomes a new code; with a seen key it becomes an update
when `update_existing` is set and the scraped description is materially
longer than the stored one, and is skipped otherwise. -/
def classifyScraped (df : List DtcRow) : List ScrapedRow → Bool → ScrapedClassification
  | [], _ => ⟨[], [], 0⟩
  | s :: rest, updateExisting =>
    let acc := classifyScraped df rest updateExisting
    match lastIdxOfKey df (pyUpper s.code, pyLower s.make_id) with
    | none => { acc with newCodes := (pyUpper s.code, s.description) :: acc.newCodes }
    | some i =>
      if updateExisting then
        if materiallyLonger s.description (descAt df i) then
          { acc with updates := (i, pyUpper s.code, s.description) :: acc.updates }
        else { acc with skipped := acc.skipped + 1 }
      else { acc with skipped := acc.skipped + 1 }

/-- In-place description update `df.loc[existing_idx, 'description'] = new_desc`. -/
def setDescAt : List DtcRow → Nat → String → List DtcRow
  | [], _, _ => []
  | r :: rs, 0, desc => { r with description := desc } :: rs
  | r :: rs, i + 1, desc => r :: setDescAt rs i desc

/-- Apply the collected updates in order (a later update to the same index
wins, as in the source loop). -/
def applyScrapedUpdates (df : List DtcRow) (updates : List (Nat × String × String)) :
    List DtcRow :=
  updates.foldl (fun d u => setDescAt d u.1 u.2.2) df

/-- `import_scraped_dtc_codes` with `enrich=False`: update matching
descriptions, quick-import the new codes under the first scraped row's
lowercased make, and sort; with nothing to do the frame is returned as-is. -/
def import_scraped_dtc_codes (df : List DtcRow) (scraped : List ScrapedRow)
    (updateExisting : Bool) : List DtcRow :=
  let cls := classifyScraped df scraped updateExisting
  if cls.newCodes = [] ∧ cls.updates = [] then df
  else
    let mk := pyLower (((scraped.head?).map (fun s => s.make_id)).getD "")
    List.insertionSort saveSortRel
      (applyScrapedUpdates df cls.updates ++ quick_import_codes cls.newCodes mk)

/-! ## Claim C7 -/

/-- The rows counted as skipped in update mode: key present but the scraped
description not materially longer. -/
def scrapedSkipPred (df : List DtcRow) (s : ScrapedRow) : Bool :=
  match lastIdxOfKey df (pyUpper s.code, pyLower s.make_id) with
  | some i => ¬ materiallyLonger s.description (descAt df i)
  | none => false

/-- Everything but the description of a row. -/
def eraseDescription (r : DtcRow) : DtcRow := { r with description := "" }

theorem classifyScraped_cons_none {df : List DtcRow} {s : ScrapedRow}
    (rest : List ScrapedRow) (ue : Bool)
    (hidx : lastIdxOfKey df (pyUpper s.code, pyLower s.make_id) = none) :
    classifyScraped df (s :: rest) ue =
      { classifyScraped df rest ue with
        newCodes := (pyUpper s.code, s.description) ::
          (classifyScraped df rest ue).newCodes } := by
  rw [classifyScraped, hidx]

theorem classifyScraped_cons_update {df : List DtcRow} {s : ScrapedRow} {i : Nat}
    (rest : List ScrapedRow)
    (hidx : lastIdxOfKey df (pyUpper s.code, pyLower s.make_id) = some i)
    (hlong : materiallyLonger s.description (descAt df i) = true) :
    classifyScraped df (s :: rest) true =
      { classifyScraped df rest true with
        updates := (i, pyUpper s.code, s.description) ::
          (classifyScraped df rest true).updates } := by
  rw [classifyScraped, hidx]
  dsimp only
  rw [if_pos hlong]
  rfl

theorem classifyScraped_cons_skip {df : List DtcRow} {s : ScrapedRow} {i : Nat}
    (rest : List ScrapedRow)
    (hidx : lastIdxOfKey df (pyUpper s.code, pyLower s.make_id) = some i)
    (hlong : ¬ materiallyLonger s.description (descAt df i) = true) :
    classifyScraped df (s :: rest) true =
      { classifyScraped df rest true with
        skipped := (classifyScraped df rest true).skipped + 1 } := by
  rw [classifyScraped, hidx]
  dsimp only
  rw [if_neg hlong]
  rfl

theorem lastIdxOfKey_valid : ∀ {df : List DtcRow} {k : String × String} {i : Nat},
    lastIdxOfKey df k = some i → ∃ r, df.get? i = some r ∧ keyCi r = k := by
  intro df
  induction df with
  | nil => intro k i h; cases h
  | cons r rs ih =>
    intro k i h
    rw [lastIdxOfKey] at h
    cases hrec : lastIdxOfKey rs k with
    | some j =>
      rw [hrec] at h
      have h' : some (j + 1) = some i := h
      injection h' with h'
      subst h'
      rcases ih hrec with ⟨r', hr', hk⟩
      exact ⟨r', hr', hk⟩
    | none =>
      rw [hrec] at h
      have h' : (if keyCi r = k then some 0 else none) = some i := h
      by_cases hkey : keyCi r = k
      · rw [if_pos hkey] at h'
        injection h' with h'
        subst h'
        exact ⟨r, rfl, hkey⟩
      · rw [if_neg hkey] at h'
        cases h'

theorem setDescAt_eraseDescription : ∀ (df : List DtcRow) (i : Nat) (d : String),
    (setDescAt df i d).map eraseDescription = df.map eraseDescription := by
  intro df
  induction df with
  | nil => intro i d; rfl
  | cons r rs ih =>
    intro i d
    cases i with
    | zero => rfl
    | succ j =>
      show eraseDescription r :: (setDescAt rs j d).map eraseDescription =
        eraseDescription r :: rs.map eraseDescription
      rw [ih]

theorem applyScrapedUpdates_eraseDescription (df : List DtcRow)
    (updates : List (Nat × String × String)) :
    (applyScrapedUpdates df updates).map eraseDescription = df.map eraseDescription := by
  induction updates generalizing df with
  | nil => rfl
  | cons u us ih =>
    show (applyScrapedUpdates (setDescAt df u.1 u.2.2) us).map eraseDescription =
      df.map eraseDescription
    rw [ih, setDescAt_eraseDescription]

/-- C7 (amended): in scraped-import update mode, a matching existing record
is collected for replacement **iff** the scraped description is *strictly*
more than 20% longer by character count (`len_s > 1.2 · len_e`, not `≥`);
every non-qualifying match is counted as skipped; and applying the updates
modifies descriptions only — every other field of every row is untouched. -/
theorem c7_conditional_replace_amended (df : List DtcRow) (scraped : List ScrapedRow) :
    (∀ u ∈ (classifyScraped df scraped true).updates,
      ∃ r, df.get? u.1 = some r ∧
        5 * u.2.2.length > 6 * r.description.length) ∧
    (∀ s ∈ scraped, ∀ i, lastIdxOfKey df (pyUpper s.code, pyLower s.make_id) = some i →
      materiallyLonger s.description (descAt df i) = true →
      (i, pyUpper s.code, s.description) ∈ (classifyScraped df scraped true).updates) ∧
    (classifyScraped df scraped true).skipped = scraped.countP (scrapedSkipPred df) ∧
    (∀ updates, (applyScrapedUpdates df updates).map eraseDescription =
      df.map eraseDescription) := by
  refine ⟨?_, ?_, ?_, fun us => applyScrapedUpdates_eraseDescription df us⟩
  · induction scraped with
    | nil => intro u hu; cases hu
    | cons s rest ih =>
      intro u hu
      cases hidx : lastIdxOfKey df (pyUpper s.code, pyLower s.make_id) with
      | none =>
        rw [classifyScraped_cons_none rest true hidx] at hu
        exact ih u hu
      | some i =>
        by_cases hlong : materiallyLonger s.description (descAt df i) = true
        · rw [classifyScraped_cons_update rest hidx hlong] at hu
          rcases List.mem_cons.mp hu with rfl | hu''
          · rcases lastIdxOfKey_valid hidx with ⟨r, hr, _⟩
            refine ⟨r, hr, ?_⟩
            have hdesc : descAt df i = r.description := by
              rw [descAt, hr]
              rfl
            rw [materiallyLonger, hdesc, decide_eq_true_eq] at hlong
            exact hlong
          · exact ih u hu''
        · rw [classifyScraped_cons_skip rest hidx hlong] at hu
          exact ih u hu
  · induction scraped with
    | nil => intro s hs; cases hs
    | cons t rest ih =>
      intro s hs i hidx hlong
      rcases List.mem_cons.mp hs with rfl | hs'
      · rw [classifyScraped_cons_update rest hidx hlong]
        exact List.mem_cons_self _ _
      · have hrec := ih s hs' i hidx hlong
        cases hidx2 : lastIdxOfKey df (pyUpper t.code, pyLower t.make_id) with
        | none =>
          rw [classifyScraped_cons_none rest true hidx2]
          exact hrec
        | some j =>
          by_cases hl2 : materiallyLonger t.description (descAt df j) = true
          · rw [classifyScraped_cons_update rest hidx2 hl2]
            exact List.mem_cons_of_mem _ hrec
          · rw [classifyScraped_cons_skip rest hidx2 hl2]
            exact hrec
  · induction scraped with
    | nil => rfl
    | cons s rest ih =>
      rw [List.countP_cons]
      cases hidx : lastIdxOfKey df (pyUpper s.code, pyLower s.make_id) with
      | none =>
        rw [classifyScraped_cons_none rest true hidx]
        rw [show scrapedSkipPred df s = false by rw [scrapedSkipPred, hidx]]
        show (classifyScraped df rest true).skipped = rest.countP (scrapedSkipPred df) + 0
        rw [ih, Nat.add_zero]
      | some i =>
        by_cases hlong : materiallyLonger s.description (descAt df i) = true
        · rw [classifyScraped_cons_update rest hidx hlong]
          rw [show scrapedSkipPred df s = false by
            rw [scrapedSkipPred, hidx]
            simp [hlong]]
          show (classifyScraped df rest true).skipped = rest.countP (scrapedSkipPred df) + 0
          rw [ih, Nat.add_zero]
        · rw [classifyScraped_cons_skip rest hidx hlong]
          rw [show scrapedSkipPred df s = true by
            rw [scrapedSkipPred, hidx]
            simp only [Bool.not_eq_true] at hlong
            simp [hlong]]
          show (classifyScraped df rest true).skipped + 1 =
            rest.countP (scrapedSkipPred df) + 1
          rw [ih]

/-! ## JSON values and `json.loads`

The JSON model used by the malformed-response recovery.  Numbers keep
their lexeme (the pipeline never computes with them), and `NaN` /
`Infinity` / `-Infinity` are accepted as Python's `json.loads` does.
A `\uXXXX` escape denoting a surrogate (not representable in a Lean
`Char`, where Python combines pairs or keeps lone surrogates) is mapped
to U+FFFD — a modelling limit of the embedding, irrelevant to the ASCII
data this pipeline handles. -/

inductive JsonValue where
  | null : JsonValue
  | bool (b : Bool) : JsonValue
  | num (lexeme : String) : JsonValue
  | str (s : String) : JsonValue
  | arr (elems : List JsonValue) : JsonValue
  | obj (fields : List (String × JsonValue)) : JsonValue

/-- JSON whitespace (`json.decoder.WHITESPACE = ' \t\n\r'`). -/
def isJsonWs (c : Char) : Bool := c = ' ' || c = '\t' || c = '\n' || c = '\r'

def dropJsonWs (s : List Char) : List Char := s.dropWhile isJsonWs

def escChar : Char → Option Char
  | '"' => some '"'
  | '\\' => some '\\'
  | '/' => some '/'
  | 'b' => some '\x08'
  | 'f' => some '\x0c'
  | 'n' => some '\n'
  | 'r' => some '\r'
  | 't' => some '\t'
  | _ => none

def hexVal (c : Char) : Option Nat :=
  if c.isDigit then some (c.toNat - 48)
  else if 'a' ≤ c ∧ c ≤ 'f' then some (c.toNat - 87)
  else if 'A' ≤ c ∧ c ≤ 'F' then some (c.toNat - 55)
  else none

def hex4 (a b c d : Char) : Option Nat := do
  let x ← hexVal a
  let y ← hexVal b
  let z ← hexVal c
  let w ← hexVal d
  some (((x * 16 + y) * 16 + z) * 16 + w)

/-- Parse the body of a JSON string after the opening quote; returns the
content and the rest after the closing quote.  Strict mode: raw control
characters are rejected. -/
def parseStrChars : List Char → Option (List Char × List Char)
  | [] => none
  | '"' :: rest => some ([], rest)
  | '\\' :: 'u' :: a :: b :: c :: d :: rest =>
    match hex4 a b c d with
    | none => none
    | some n =>
      match parseStrChars rest with
      | some (tail, r) =>
        some ((if 0xD800 ≤ n ∧ n ≤ 0xDFFF then Char.ofNat 0xFFFD
               else Char.ofNat n) :: tail, r)
      | none => none
  | '\\' :: e :: rest =>
    match escChar e with
    | some c =>
      match parseStrChars rest with
      | some (tail, r) => some (c :: tail, r)
      | none => none
    | none => none
  | c :: rest =>
    if c.toNat < 0x20 then none
    else
      match parseStrChars rest with
      | some (tail, r) => some (c :: tail, r)
      | none => none

def takeDigits (s : List Char) : List Char × List Char :=
  (s.takeWhile Char.isDigit, s.dropWhile Char.isDigit)

/-- Integer part of `json`'s `NUMBER_RE`: `(?:0|[1-9]\d*)`. -/
def parseIntPart : List Char → Option (List Char × List Char)
  | '0' :: cs => some (['0'], cs)
  | c :: cs =>
    if c.isDigit then
      let t := takeDigits cs
      some (c :: t.1, t.2)
    else none
  | [] => none

/-- Optional fraction `(\.\d+)?`. -/
def parseFracPart (s : List Char) : List Char × List Char :=
  match s with
  | '.' :: cs =>
    let t := takeDigits cs
    if t.1 = [] then ([], s) else ('.' :: t.1, t.2)
  | _ => ([], s)

/-- Optional exponent `([eE][-+]?\d+)?`. -/
def parseExpPart (s : List Char) : List Char × List Char :=
  match s with
  | c :: cs =>
    if c = 'e' ∨ c = 'E' then
      match cs with
      | sgn :: cs2 =>
        if sgn = '+' ∨ sgn = '-' then
          let t := takeDigits cs2
          if t.1 = [] then ([], s) else (c :: sgn :: t.1, t.2)
        else
          let t := takeDigits cs
          if t.1 = [] then ([], s) else (c :: t.1, t.2)
      | [] => ([], s)
    else ([], s)
  | [] => ([], s)

/-- A complete number token per `json`'s `NUMBER_RE`. -/
def parseNumberTok (s : List Char) : Option (String × List Char) :=
  let p := match s with
    | '-' :: cs => (['-'], cs)
    | _ => (([] : List Char), s)
  match parseIntPart p.2 with
  | none => none
  | some (ip, s2) =>
    let f := parseFracPart s2
    let e := parseExpPart f.2
    some (⟨p.1 ++ ip ++ f.1 ++ e.1⟩, e.2)

mutual

/-- One JSON value (no leading whitespace; callers skip it). -/
def parseVal : Nat → List Char → Option (JsonValue × List Char)
  | 0, _ => none
  | fuel + 1, s =>
    match s with
    | '\x7b' :: rest =>
      match dropJsonWs rest with
      | '\x7d' :: r2 => some (.obj [], r2)
      | r1 =>
        match parseMembers fuel r1 with
        | some (ms, r2) => some (.obj ms, r2)
        | none => none
    | '[' :: rest =>
      match dropJsonWs rest with
      | ']' :: r2 => some (.arr [], r2)
      | r1 =>
        match parseElems fuel r1 with
        | some (vs, r2) => some (.arr vs, r2)
        | none => none
    | '"' :: rest =>
      match parseStrChars rest with
      | some (cs, r) => some (.str ⟨cs⟩, r)
      | none => none
    | 't' :: 'r' :: 'u' :: 'e' :: rest => some (.bool true, rest)
    | 'f' :: 'a' :: 'l' :: 's' :: 'e' :: rest => some (.bool false, rest)
    | 'n' :: 'u' :: 'l' :: 'l' :: rest => some (.null, rest)
    | 'N' :: 'a' :: 'N' :: rest => some (.num "NaN", rest)
    | 'I' :: 'n' :: 'f' :: 'i' :: 'n' :: 'i' :: 't' :: 'y' :: rest =>
      some (.num "Infinity", rest)
    | _ =>
      match parseNumberTok s with
      | some (lex, rest) => some (.num lex, rest)
      | none =>
        if "-Infinity".data.isPrefixOf s then some (.num "-Infinity", s.drop 9)
        else none

/-- Non-empty array tail: value, then `,` more elements or `]`. -/
def parseElems : Nat → List Char → Option (List JsonValue × List Char)
  | 0, _ => none
  | fuel + 1, s =>
    match parseVal fuel s with
    | none => none
    | some (v, r) =>
      match dropJsonWs r with
      | ',' :: r2 =>
        match parseElems fuel (dropJsonWs r2) with
        | some (vs, r3) => some (v :: vs, r3)
        | none => none
      | ']' :: r2 => some ([v], r2)
      | _ => none

/-- Non-empty object tail: string key, `:`, value, then `,` or `}`. -/
def parseMembers : Nat → List Char → Option (List (String × JsonValue) × List Char)
  | 0, _ => none
  | fuel + 1, s =>
    match s with
    | '"' :: rest =>
      match parseStrChars rest with
      | none => none
      | some (key, r1) =>
        match dropJsonWs r1 with
        | ':' :: r3 =>
          match parseVal fuel (dropJsonWs r3) with
          | none => none
          | some (v, r4) =>
            match dropJsonWs r4 with
            | ',' :: r6 =>
              match parseMembers fuel (dropJsonWs r6) with
              | some (ms, r7) => some ((⟨key⟩, v) :: ms, r7)
              | none => none
            | '\x7d' :: r6 => some ([(⟨key⟩, v)], r6)
            | _ => none
        | _ => none
    | _ => none

end

/-- `json.loads`: skip leading whitespace, parse one value, require only
whitespace after it.  `none` models a raised `JSONDecodeError` (the only
exception `loads` raises on string input). -/
def jsonLoads (s : String) : Option JsonValue :=
  let cs := dropJsonWs s.data
  match parseVal (cs.length + 1) cs with
  | some (v, r) => if dropJsonWs r = [] then some v else none
  | none => none

/-! ## `parse_json_robustly` — the four recovery strategies -/

/-- `re.search(r'\[[\s\S]*\]', s)`: the span from the first `[` that has a
`]` somewhere after it, to the last `]` of the text (leftmost match start,
greedy extent). -/
def spanBracket (s : List Char) : Option (List Char) :=
  match s.dropWhile (fun c => ¬ c = '[') with
  | [] => none
  | _ :: rest =>
    match (rest.reverse.dropWhile (fun c => ¬ c = ']')).reverse with
    | [] => none
    | u => some ('[' :: u)

/-- Strategy 1: parse the outermost bracketed span as-is. -/
def strategy1 (s : List Char) : Option JsonValue :=
  match spanBracket s with
  | some sub => jsonLoads ⟨sub⟩
  | none => none

/-- `re.sub(r',\s*\]', ']', s)`: drop every comma directly preceding
(possibly whitespace-separated) `]`, scanning left to right. -/
def subCommaCloseF : Nat → List Char → List Char
  | 0, l => l
  | _ + 1, [] => []
  | fuel + 1, ',' :: cs =>
    match cs.dropWhile isPyWs with
    | ']' :: rest2 => ']' :: subCommaCloseF fuel rest2
    | _ => ',' :: subCommaCloseF fuel cs
  | fuel + 1, c :: cs => c :: subCommaCloseF fuel cs

def subCommaClose (l : List Char) : List Char := subCommaCloseF l.length l

/-- Strategy 2: take the text from the first `[`, truncate right after the
**last `}` character** (`rfind('}')` — not quote-aware), require that brace
at a positive offset, strip commas before `]`, append one `]`, reparse. -/
def strategy2 (s : List Char) : Option JsonValue :=
  match s.dropWhile (fun c => ¬ c = '[') with
  | [] => none
  | t =>
    let trunc := (t.reverse.dropWhile (fun c => ¬ c = '\x7d')).reverse
    if 2 ≤ trunc.length then jsonLoads ⟨subCommaClose (trunc ++ [']'])⟩
    else none

/-- Python `'key' in obj` after `json.loads`: mapping-key membership for
objects, element equality for arrays, substring test for strings; for the
other values Python raises `TypeError`, which the bare `except` of
strategies 3/4 turns into "skip", i.e. `false`. -/
def pyMembership (key : String) : JsonValue → Bool
  | .obj fields => fields.any (fun f => f.1 = key)
  | .arr elems => elems.any (fun e => match e with | .str s => s = key | _ => false)
  | .str s => pyInStr key s
  | _ => false

/-! Strategy 3's pattern
`\{\s*"code"\s*:\s*"[^"]+"\s*,[\s\S]*?"powertrain_type"\s*:\s*"[^"]+"\s*\}`,
matched piecewise (each piece is deterministic; the lazy middle takes the
earliest completion). -/

def matchLit (lit s : List Char) : Option (List Char) :=
  if lit.isPrefixOf s then some (s.drop lit.length) else none

/-- `"[^"]+"`. -/
def matchQuoted (s : List Char) : Option (List Char) :=
  match s with
  | '"' :: rest =>
    if rest.takeWhile (fun c => ¬ c = '"') = [] then none
    else
      match rest.dropWhile (fun c => ¬ c = '"') with
      | '"' :: rest2 => some rest2
      | _ => none
  | _ => none

/-- `\{\s*"code"\s*:\s*"[^"]+"\s*,` — the mandatory head of the pattern. -/
def s3MatchHead (s : List Char) : Option (List Char) := do
  let s1 ← matchLit ['\x7b'] s
  let s3 ← matchLit "\"code\"".data (s1.dropWhile isPyWs)
  let s5 ← matchLit [':'] (s3.dropWhile isPyWs)
  let s7 ← matchQuoted (s5.dropWhile isPyWs)
  matchLit [','] (s7.dropWhile isPyWs)

/-- `"powertrain_type"\s*:\s*"[^"]+"\s*\}` — the tail of the pattern. -/
def s3MatchEnd (s : List Char) : Option (List Char) := do
  let s1 ← matchLit "\"powertrain_type\"".data s
  let s3 ← matchLit [':'] (s1.dropWhile isPyWs)
  let s5 ← matchQuoted (s3.dropWhile isPyWs)
  matchLit ['\x7d'] (s5.dropWhile isPyWs)

/-- The lazy `[\s\S]*?`: earliest position where the tail matches. -/
def s3LazyEnd : Nat → List Char → Option (List Char)
  | 0, _ => none
  | fuel + 1, s =>
    match s3MatchEnd s with
    | some rest => some rest
    | none =>
      match s with
      | [] => none
      | _ :: cs => s3LazyEnd fuel cs

/-- Try the whole pattern at this position; returns the rest after it. -/
def s3TryMatch (s : List Char) : Option (List Char) := do
  let mid ← s3MatchHead s
  s3LazyEnd (mid.length + 1) mid

/-- `re.findall`, non-overlapping, scanning left to right. -/
def s3Findall : Nat → List Char → List (List Char)
  | 0, _ => []
  | _ + 1, [] => []
  | fuel + 1, c :: cs =>
    match s3TryMatch (c :: cs) with
    | some rest => (c :: cs).take ((c :: cs).length - rest.length) :: s3Findall fuel rest
    | none => s3Findall fuel cs

/-- Strategy 3: parse each matched span independently; keep spans that
parse and contain the `code` and `description` keys. -/
def strategy3 (s : List Char) : Option JsonValue :=
  match (s3Findall s.length s).foldr (fun sp acc =>
    match jsonLoads ⟨sp⟩ with
    | some v =>
      if pyMembership "code" v && pyMembership "description" v then v :: acc else acc
    | none => acc) [] with
  | [] => none
  | v :: vs => some (.arr (v :: vs))

/-! Strategy 4: line-oriented recovery. -/

/-- Python `s.split('\n')`. -/
def splitOnNl : List Char → List (List Char)
  | [] => [[]]
  | '\n' :: cs => [] :: splitOnNl cs
  | c :: cs =>
    match splitOnNl cs with
    | l :: ls => (c :: l) :: ls
    | [] => [[c]]

/-- Python `'\n'.join(lines)`. -/
def joinNl : List (List Char) → List Char
  | [] => []
  | [l] => l
  | l :: ls => l ++ '\n' :: joinNl ls

/-- `re.sub(r',(\s*[}\]])', r'\1', s)`: drop a comma directly preceding
(possibly whitespace-separated) `}` or `]`. -/
def subCommaAnyCloseF : Nat → List Char → List Char
  | 0, l => l
  | _ + 1, [] => []
  | fuel + 1, ',' :: cs =>
    match cs.takeWhile isPyWs, cs.dropWhile isPyWs with
    | ws, c :: rest2 =>
      if c = '\x7d' ∨ c = ']' then ws ++ c :: subCommaAnyCloseF fuel rest2
      else ',' :: subCommaAnyCloseF fuel cs
    | _, [] => ',' :: subCommaAnyCloseF fuel cs
  | fuel + 1, c :: cs => c :: subCommaAnyCloseF fuel cs

def subCommaAnyClose (l : List Char) : List Char := subCommaAnyCloseF l.length l

/-- One parse attempt of an accumulated line group: clean trailing commas,
parse, keep the value when it "contains" the key `code`. -/
def s4ParseGroup (cur : List (List Char)) : List JsonValue :=
  match jsonLoads ⟨subCommaAnyClose (joinNl cur)⟩ with
  | some v => if pyMembership "code" v then [v] else []
  | none => []

/-- The line loop of strategy 4: track the running brace count, accumulate
lines that are inside braces or contain `{`, and try to parse each group
when the count returns to zero. -/
def s4Loop : List (List Char) → Int → List (List Char) → List JsonValue
  | [], _, _ => []
  | line :: rest, bc, cur =>
    let bc2 := bc + (line.countP (fun c => c = '\x7b') : Int) -
      (line.countP (fun c => c = '\x7d') : Int)
    let cur2 := if bc2 > 0 ∨ line.any (fun c => c = '\x7b') then cur ++ [line] else cur
    if bc2 = 0 ∧ ¬ cur2 = [] then s4ParseGroup cur2 ++ s4Loop rest bc2 []
    else s4Loop rest bc2 cur2

def strategy4 (s : List Char) : Option JsonValue :=
  match s4Loop (splitOnNl s) 0 [] with
  | [] => none
  | objects => some (.arr objects)

/-- `fill_dtc_gaps.parse_json_robustly`: the four strategies tried in
order, first success wins; the empty list when none recovers anything.
Inside each strategy a failing `json.loads` is a caught `JSONDecodeError`
(`none`), which falls through to the next strategy. -/
def parse_json_robustly (response : String) : JsonValue :=
  match strategy1 response.data with
  | some v => v
  | none =>
    match strategy2 response.data with
    | some v => v
    | none =>
      match strategy3 response.data with
      | some v => v
      | none =>
        match strategy4 response.data with
        | some v => v
        | none => .arr []

/-! ## Claim C3: totality and exactness of the recovery cascade -/

/-- On a text that itself starts with `[` and ends with `]`, the
`re.search(r'\[[\s\S]*\]')` span is the whole text. -/
theorem spanBracket_wrap (mid : List Char) :
    spanBracket ('[' :: (mid ++ [']'])) = some ('[' :: (mid ++ [']'])) := by
  unfold spanBracket
  rw [List.dropWhile_cons]
  simp only [decide_not, decide_eq_true_eq]
  norm_num

/-- C3 (amended): `parse_json_robustly` is a total function (every
`json.loads` failure inside it is a caught `JSONDecodeError`, and
strategies 3 and 4 catch everything); when none of the four strategies
recovers anything it returns the empty array; and exactness on valid
input holds for documents that begin with `[` and end with `]` — in
particular every bare JSON array — where the result is exactly the
parsed structure.  Exactness does **not** extend to valid JSON documents
of any other shape (see the counterexample): strategy 1 reparses only
the first-`[`-to-last-`]` span, not the document. -/
theorem c3_recovery_amended :
    (∀ (text : String), strategy1 text.data = none → strategy2 text.data = none →
        strategy3 text.data = none → strategy4 text.data = none →
        parse_json_robustly text = .arr []) ∧
    (∀ (text : String) (mid : List Char) (v : JsonValue),
        text.data = '[' :: (mid ++ [']']) → jsonLoads text = some v →
        parse_json_robustly text = v) := by
  constructor
  · intro text h1 h2 h3 h4
    unfold parse_json_robustly
    rw [h1, h2, h3, h4]
  · intro text mid v hshape hload
    have hs1 : strategy1 text.data = some v := by
      unfold strategy1
      rw [hshape, spanBracket_wrap]
      show jsonLoads ⟨'[' :: (mid ++ [']'])⟩ = some v
      rw [← hshape]
      exact hload
    unfold parse_json_robustly
    rw [hs1]

/-- A response from which no strategy recovers anything. -/
def c3AllFailInput : String := "no json here"

/-- A bare valid JSON array response. -/
def c3ArrayInput : String := "[\x7b\"code\":\"P0001\"\x7d]"

/-- The characters of `c3ArrayInput` strictly between the brackets. -/
def c3ArrayMid : List Char := "\x7b\"code\":\"P0001\"\x7d".data

/-- Witness for C3 at concrete inputs: an unrecoverable text yields the
empty array, and a bare valid JSON array is returned exactly as parsed. -/
theorem c3_recovery_amended_witness :
    parse_json_robustly c3AllFailInput = .arr [] ∧
    parse_json_robustly c3ArrayInput = .arr [.obj [("code", .str "P0001")]] :=
  ⟨c3_recovery_amended.1 c3AllFailInput rfl rfl rfl rfl,
   c3_recovery_amended.2 c3ArrayInput c3ArrayMid
     (.arr [.obj [("code", .str "P0001")]]) rfl rfl⟩

/-- A syntactically valid JSON document whose top level is an object. -/
def c3ObjInput : String := "\x7b\"a\": []\x7d"

/-- C3 counterexample: on the valid JSON document `\x7b"a": []\x7d` the
claimed exactness fails — `json.loads` yields the object, but the code's
strategy 1 extracts the inner `[]` span and returns the empty array
instead of the parsed document. -/
theorem c3_counterexample :
    jsonLoads c3ObjInput = some (.obj [("a", .arr [])]) ∧
    parse_json_robustly c3ObjInput = .arr [] ∧
    (JsonValue.obj [("a", .arr [])]) ≠ .arr [] :=
  ⟨rfl, rfl, fun h => JsonValue.noConfusion h⟩

/-! ## Claim C4: the bracket-balance repair -/

/-- The quote- and escape-aware scan the specification describes: walk the
text tracking a string-quote state, a trailing-backslash escape and a
bracket stack (brackets inside quoted strings ignored), remembering the
last position at which a `}` pops the object nesting back to the array
level (stack exactly `['[']`).  Stated from the spec's words, for
comparison with the `rfind('}')` truncation the code performs. -/
def repairScan : List Char → Nat → Bool → Bool → List Char → Option Nat → Option Nat
  | [], _, _, _, _, best => best
  | c :: cs, i, inStr, esc, stack, best =>
    if inStr then
      if esc then repairScan cs (i + 1) true false stack best
      else if c = '\\' then repairScan cs (i + 1) true true stack best
      else if c = '"' then repairScan cs (i + 1) false false stack best
      else repairScan cs (i + 1) true false stack best
    else
      if c = '"' then repairScan cs (i + 1) true false stack best
      else if c = '\x7b' ∨ c = '[' then repairScan cs (i + 1) false false (c :: stack) best
      else if c = '\x7d' then
        match stack with
        | '\x7b' :: rest =>
          repairScan cs (i + 1) false false rest (if rest = ['['] then some i else best)
        | _ => repairScan cs (i + 1) false false stack best
      else if c = ']' then
        match stack with
        | '[' :: rest => repairScan cs (i + 1) false false rest best
        | _ => repairScan cs (i + 1) false false stack best
      else repairScan cs (i + 1) false false stack best

def stripTrailingComma (l : List Char) : List Char :=
  match l.reverse.dropWhile isPyWs with
  | ',' :: rest => rest.reverse
  | _ => l

/-- The bracket-balance repair as the specification describes it: truncate
at the last complete object boundary found by the quote-aware scan, strip a
trailing comma, close the array, reparse. -/
def specBracketRepair (s : List Char) : Option JsonValue :=
  match s.dropWhile (fun c => ¬ c = '[') with
  | [] => none
  | t =>
    match repairScan t 0 false false [] none with
    | none => none
    | some i => jsonLoads ⟨stripTrailingComma (t.take (i + 1)) ++ [']']⟩

/-- The truncated response of the specification's recovery scenario. -/
def c4ScenarioInput : String :=
  "[\x7b\"code\":\"P1234\",\"description\":\"foo\"\x7d,\x7b\"code\":\"P1235\",\"desc"

/-- A truncated response whose **last `}` character sits inside a quoted
string**: the quote-aware scan of the claim and the code's `rfind('}')`
disagree here. -/
def c4QuoteBraceInput : String :=
  "[\x7b\"code\":\"P1\",\"d\":\"x\"\x7d,\x7b\"code\":\"\x7d\",\"d"

/-- C4 (amended): when the whole-document parse fails, strategy 2 truncates
the text (from the first `[`) right after the **last `}` character,
regardless of string quoting**, strips commas before `]`, appends a single
`]`, and reparses; on the specification's scenario input (truncated
mid-second-object) the recovery indeed yields exactly one record, P1234. -/
theorem c4_bracket_repair_amended :
    strategy1 c4ScenarioInput.data = none ∧
    strategy2 c4ScenarioInput.data =
      some (.arr [.obj [("code", .str "P1234"), ("description", .str "foo")]]) ∧
    parse_json_robustly c4ScenarioInput =
      .arr [.obj [("code", .str "P1234"), ("description", .str "foo")]] :=
  ⟨rfl, rfl, rfl⟩

/-- C4 counterexample: the repair is **not** the quote-aware scan the claim
describes.  On `c4QuoteBraceInput` the claim's scan (ignoring the `}`
inside the quoted string) recovers exactly one record P1, while the code
truncates at that in-string `}`, fails to reparse, and recovers nothing. -/
theorem c4_counterexample :
    specBracketRepair c4QuoteBraceInput.data =
      some (.arr [.obj [("code", .str "P1"), ("d", .str "x")]]) ∧
    parse_json_robustly c4QuoteBraceInput = .arr [] ∧
    (JsonValue.arr [.obj [("code", .str "P1"), ("d", .str "x")]]) ≠ .arr [] := by
  refine ⟨rfl, rfl, ?_⟩
  intro h
  injection h with h
  cases h

/-! ## `classify_codes_with_ai`

The external classifier is an oracle `Nat → Option String` giving the raw
text returned for each batch (`call_openrouter` returns `Optional[str]`).
`.lower()` on a non-string JSON value raises `AttributeError`, which this
function does **not** catch — modelled with `Except`. -/

/-- `re.search(r'\{[\s\S]*\}', s)`: from the first `{` with a `}` after it
to the last `}`. -/
def spanBrace (s : List Char) : Option (List Char) :=
  match s.dropWhile (fun c => ¬ c = '\x7b') with
  | [] => none
  | _ :: rest =>
    match (rest.reverse.dropWhile (fun c => ¬ c = '\x7d')).reverse with
    | [] => none
    | u => some ('\x7b' :: u)

/-- Lookup in a dict built by `json.loads`: a later duplicate key wins. -/
def jsonObjGet (fields : List (String × JsonValue)) (key : String) : Option JsonValue :=
  ((fields.filter (fun f => f.1 = key)).getLast?).map (fun f => f.2)

/-- Python truthiness of a JSON-decoded value. -/
def pyTruthy : JsonValue → Bool
  | .null => false
  | .bool b => b
  | .num lex =>
    -- zero iff the mantissa (before any exponent) has digits but none nonzero
    let mant := lex.data.takeWhile (fun c => ¬ (c = 'e' ∨ c = 'E'))
    ¬ (mant.any Char.isDigit && ¬ mant.any (fun c => c.isDigit && ¬ c = '0'))
  | .str s => ¬ s = ""
  | .arr l => ¬ l.isEmpty
  | .obj f => ¬ f.isEmpty

/-- `classifications.get(code, classifications.get(code.upper(), 'unknown'))`. -/
def classifyGetMake (classifications : List (String × JsonValue)) (code : String) :
    JsonValue :=
  match jsonObjGet classifications code with
  | some v => v
  | none =>
    match jsonObjGet classifications (pyUpper code) with
    | some v => v
    | none => .str "unknown"

/-- First-occurrence de-duplication (Python dict-comprehension keys). -/
def dedupFirst (seen : List String) : List String → List String
  | [] => []
  | m :: ms => if m ∈ seen then dedupFirst seen ms else m :: dedupFirst (seen ++ [m]) ms

/-- `all_classifications[k].append(v)` on the association list. -/
def updateAssoc (l : List (String × List (String × String))) (k : String)
    (v : String × String) : List (String × List (String × String)) :=
  l.map (fun p => if p.1 = k then (p.1, p.2 ++ [v]) else p)

/-- Distribute one decoded batch response over the accumulator; an
`AttributeError` from `.lower()` on a truthy non-string value aborts. -/
def classifyBatch (classifications : List (String × JsonValue))
    (manufacturers : List String) :
    List (String × String) → List (String × List (String × String)) →
    Except String (List (String × List (String × String)))
  | [], acc => .ok acc
  | (code, desc) :: rest, acc =>
    if pyTruthy (classifyGetMake classifications code) then
      match classifyGetMake classifications code with
      | .str s =>
        if pyLower s ∈ manufacturers then
          classifyBatch classifications manufacturers rest
            (updateAssoc acc (pyLower s) (code, desc))
        else classifyBatch classifications manufacturers rest acc
      | _ => .error "AttributeError: .lower() on a non-string classification"
    else classifyBatch classifications manufacturers rest acc

/-- Handle one batch: no response, no extractable `{...}` span, or an
undecodable span all leave the accumulator unchanged
(`except json.JSONDecodeError` is caught). -/
def classifyHandleResponse (response : Option String) (manufacturers : List String)
    (batch : List (String × String)) (acc : List (String × List (String × String))) :
    Except String (List (String × List (String × String))) :=
  match response with
  | none => .ok acc
  | some resp =>
    match spanBrace resp.data with
    | none => .ok acc
    | some sub =>
      match jsonLoads ⟨sub⟩ with
      | some (.obj fields) => classifyBatch fields manufacturers batch acc
      | _ => .ok acc

/-- The batch loop (`BATCH_SIZE = 100`), driven by fuel bounded by the
number of codes. -/
def classifyLoopF (manufacturers : List String) (oracle : Nat → Option String) :
    Nat → List (String × String) → Nat → List (String × List (String × String)) →
    Except String (List (String × List (String × String)))
  | 0, _, _, acc => .ok acc
  | _ + 1, [], _, acc => .ok acc
  | fuel + 1, c :: cs, batchNum, acc =>
    match classifyHandleResponse (oracle batchNum) manufacturers
        ((c :: cs).take 100) acc with
    | .ok acc2 => classifyLoopF manufacturers oracle fuel ((c :: cs).drop 100)
        (batchNum + 1) acc2
    | .error e => .error e

/-- `fill_dtc_gaps.classify_codes_with_ai`: initialise one empty bucket per
candidate manufacturer and process the unmatched codes in batches of 100. -/
def classify_codes_with_ai (unmatchedCodes : List (String × String))
    (manufacturers : List String) (oracle : Nat → Option String) :
    Except String (List (String × List (String × String))) :=
  classifyLoopF manufacturers oracle (unmatchedCodes.length + 1) unmatchedCodes 0
    ((dedupFirst [] manufacturers).map (fun m => (m, [])))

/-- Stored record whose description has exactly 10 characters. -/
def rowDescTen : DtcRow :=
  ⟨"P0301", "ford", "0123456789", "", "", "", "", "", "", "", "All"⟩

/-- Scraped record with the same key and a description of exactly 12
characters — exactly 20% longer than the stored one. -/
def scrapedTwelve : ScrapedRow := ⟨"P0301", "ford", "012345678901"⟩

/-- Scraped record with the same key and a description of 13 characters —
strictly more than 20% longer. -/
def scrapedThirteen : ScrapedRow := ⟨"P0301", "ford", "0123456789012"⟩

/-- Witness for C7 at a concrete dataset: a 13-character scraped description
(strictly more than 20% longer than the stored 10 characters) is collected
for replacement. -/
theorem c7_conditional_replace_amended_witness :
    (0, pyUpper scrapedThirteen.code, scrapedThirteen.description) ∈
      (classifyScraped [rowDescTen] [scrapedThirteen] true).updates :=
  (c7_conditional_replace_amended [rowDescTen] [scrapedThirteen]).2.1
    scrapedThirteen (by decide) 0 (by decide) (by decide)

/-- C7 counterexample: a scraped description exactly 20% longer (12 vs 10
characters) satisfies the claim's "at least 20% longer" threshold but the
code skips it (strict `>`), leaving the dataset unchanged — the claimed
"if and only if at least 20% longer" is false as stated. -/
theorem c7_counterexample :
    (classifyScraped [rowDescTen] [scrapedTwelve] true).updates = [] ∧
    (classifyScraped [rowDescTen] [scrapedTwelve] true).skipped = 1 ∧
    5 * scrapedTwelve.description.length ≥ 6 * rowDescTen.description.length ∧
    keyCi rowDescTen = (pyUpper scrapedTwelve.code, pyLower scrapedTwelve.make_id) ∧
    import_scraped_dtc_codes [rowDescTen] [scrapedTwelve] true = [rowDescTen] := by
  refine ⟨?_, ?_, ?_, ?_, ?_⟩ <;> decide

/-- Every manufacturer kept by the first-occurrence dedup was in the input
list. -/
theorem dedupFirst_subset (l : List String) :
    ∀ (seen : List String) (x : String), x ∈ dedupFirst seen l → x ∈ l := by
  induction l with
  | nil =>
    intro seen x hx
    rw [dedupFirst] at hx
    cases hx
  | cons m ms ih =>
    intro seen x hx
    rw [dedupFirst] at hx
    by_cases hm : m ∈ seen
    · rw [if_pos hm] at hx
      exact List.mem_cons_of_mem _ (ih _ _ hx)
    · rw [if_neg hm] at hx
      rcases List.mem_cons.mp hx with h | h
      · exact h ▸ List.mem_cons_self _ _
      · exact List.mem_cons_of_mem _ (ih _ _ h)

/-- `updateAssoc` preserves any per-bucket invariant: keys are unchanged and
the only new value is the appended one. -/
theorem updateAssoc_inv {P : String → Prop} {Q : String × String → Prop}
    {l : List (String × List (String × String))} {k : String} {v : String × String}
    (hl : ∀ p ∈ l, P p.1 ∧ ∀ cd ∈ p.2, Q cd) (hv : Q v) :
    ∀ p ∈ updateAssoc l k v, P p.1 ∧ ∀ cd ∈ p.2, Q cd := by
  intro p hp
  rcases List.mem_map.mp hp with ⟨q, hq, hqe⟩
  rcases hl q hq with ⟨hP, hQ⟩
  by_cases hk : q.1 = k
  · rw [if_pos hk] at hqe
    subst hqe
    refine ⟨hP, ?_⟩
    intro cd hcd
    rcases List.mem_append.mp hcd with h | h
    · exact hQ cd h
    · rcases List.mem_singleton.mp h with rfl
      exact hv
  · rw [if_neg hk] at hqe
    subst hqe
    exact ⟨hP, hQ⟩

/-- `classifyBatch` preserves the invariant that every bucket key is a
candidate manufacturer and every stored pair satisfies `Q`, provided the
batch entries satisfy `Q`. -/
theorem classifyBatch_inv {cls : List (String × JsonValue)} {mfrs : List String}
    {Q : String × String → Prop} :
    ∀ (batch : List (String × String))
      (acc res : List (String × List (String × String))),
    classifyBatch cls mfrs batch acc = .ok res →
    (∀ p ∈ acc, p.1 ∈ mfrs ∧ ∀ cd ∈ p.2, Q cd) →
    (∀ cd ∈ batch, Q cd) →
    ∀ p ∈ res, p.1 ∈ mfrs ∧ ∀ cd ∈ p.2, Q cd := by
  intro batch
  induction batch with
  | nil =>
    intro acc res h hacc _
    rw [classifyBatch] at h
    injection h with h
    subst h
    exact hacc
  | cons cd0 rest ih =>
    rcases cd0 with ⟨code, desc⟩
    intro acc res h hacc hbatch
    rw [classifyBatch] at h
    split at h
    · split at h
      · split at h
        · exact ih _ _ h
            (updateAssoc_inv hacc (hbatch _ (List.mem_cons_self _ _)))
            (fun cd hcd => hbatch cd (List.mem_cons_of_mem _ hcd))
        · exact ih _ _ h hacc (fun cd hcd => hbatch cd (List.mem_cons_of_mem _ hcd))
      · exact Except.noConfusion h
    · exact ih _ _ h hacc (fun cd hcd => hbatch cd (List.mem_cons_of_mem _ hcd))

/-- Handling one oracle response preserves the bucket invariant. -/
theorem classifyHandleResponse_inv {resp : Option String} {mfrs : List String}
    {Q : String × String → Prop} {batch : List (String × String)}
    {acc res : List (String × List (String × String))}
    (h : classifyHandleResponse resp mfrs batch acc = .ok res)
    (hacc : ∀ p ∈ acc, p.1 ∈ mfrs ∧ ∀ cd ∈ p.2, Q cd)
    (hbatch : ∀ cd ∈ batch, Q cd) :
    ∀ p ∈ res, p.1 ∈ mfrs ∧ ∀ cd ∈ p.2, Q cd := by
  unfold classifyHandleResponse at h
  split at h
  · injection h with h
    subst h
    exact hacc
  · split at h
    · injection h with h
      subst h
      exact hacc
    · split at h
      · exact classifyBatch_inv _ _ _ h hacc hbatch
      · injection h with h
        subst h
        exact hacc

/-- The batch loop preserves the bucket invariant for any fuel. -/
theorem classifyLoopF_inv {mfrs : List String} {oracle : Nat → Option String}
    {Q : String × String → Prop} :
    ∀ (fuel : Nat) (codes : List (String × String)) (bn : Nat)
      (acc res : List (String × List (String × String))),
    classifyLoopF mfrs oracle fuel codes bn acc = .ok res →
    (∀ p ∈ acc, p.1 ∈ mfrs ∧ ∀ cd ∈ p.2, Q cd) →
    (∀ cd ∈ codes, Q cd) →
    ∀ p ∈ res, p.1 ∈ mfrs ∧ ∀ cd ∈ p.2, Q cd := by
  intro fuel
  induction fuel with
  | zero =>
    intro codes bn acc res h hacc _
    rw [classifyLoopF] at h
    injection h with h
    subst h
    exact hacc
  | succ f ih =>
    intro codes bn acc res h hacc hcodes
    cases codes with
    | nil =>
      rw [classifyLoopF] at h
      injection h with h
      subst h
      exact hacc
    | cons c cs =>
      rw [classifyLoopF] at h
      split at h
      next acc2 heq =>
        have hacc2 := classifyHandleResponse_inv heq hacc
          (fun cd hcd => hcodes cd (List.take_subset _ _ hcd))
        exact ih _ _ _ _ h hacc2
          (fun cd hcd => hcodes cd (List.drop_subset _ _ hcd))
      next e heq => exact Except.noConfusion h

/-- C9 (conservative classification): whenever `classify_codes_with_ai`
returns a result (i.e. no uncaught `AttributeError` from a non-string
classification), every owner key in the result comes from the supplied
candidate manufacturer list, and every code stored in any owner's bucket
comes from the supplied unmatched-code list — codes the classifier maps
to "unknown" (falsy) or to a manufacturer outside the candidates are
dropped, never force-assigned. -/
theorem c9_conservative_classification
    (codes : List (String × String)) (manufacturers : List String)
    (oracle : Nat → Option String)
    (res : List (String × List (String × String)))
    (h : classify_codes_with_ai codes manufacturers oracle = .ok res) :
    (∀ p ∈ res, p.1 ∈ manufacturers) ∧
    (∀ p ∈ res, ∀ cd ∈ p.2, cd ∈ codes) := by
  have h' : classifyLoopF manufacturers oracle (codes.length + 1) codes 0
      ((dedupFirst [] manufacturers).map (fun m => (m, []))) = .ok res := h
  have hinit : ∀ p ∈ (dedupFirst [] manufacturers).map
      (fun m => (m, ([] : List (String × String)))),
      p.1 ∈ manufacturers ∧ ∀ cd ∈ p.2, cd ∈ codes := by
    intro p hp
    rcases List.mem_map.mp hp with ⟨m, hm, hpe⟩
    subst hpe
    exact ⟨dedupFirst_subset _ _ _ hm,
      fun cd hcd => absurd hcd (List.not_mem_nil cd)⟩
  have hmain := classifyLoopF_inv (codes.length + 1) codes 0 _ res h' hinit
    (fun cd hcd => hcd)
  exact ⟨fun p hp => (hmain p hp).1, fun p hp => (hmain p hp).2⟩

/-- A one-element unmatched list for the C9 witness. -/
def c9Codes : List (String × String) :=
  [("P1601", "PCM communication error with VTEC solenoid")]

/-- Oracle answering every batch with a small classification object. -/
def c9Oracle : Nat → Option String :=
  fun _ => some "\x7b\"P1601\": \"Honda\"\x7d"

/-- The classification produced for `c9Codes` under `c9Oracle`. -/
def c9Result : List (String × List (String × String)) :=
  [("honda", [("P1601", "PCM communication error with VTEC solenoid")]),
   ("toyota", [])]

/-- Witness for C9 at a concrete run: the oracle says "Honda", the code
lands in the lower-cased candidate bucket, and both conclusions hold at
that bucket. -/
theorem c9_conservative_classification_witness :
    ("honda", [("P1601", "PCM communication error with VTEC solenoid")])
      ∈ c9Result ∧
    "honda" ∈ ["honda", "toyota"] ∧
    (("P1601", "PCM communication error with VTEC solenoid") : String × String)
      ∈ c9Codes :=
  ⟨by decide,
   (c9_conservative_classification c9Codes ["honda", "toyota"] c9Oracle c9Result
      rfl).1
     ("honda", [("P1601", "PCM communication error with VTEC solenoid")])
     (by decide),
   (c9_conservative_classification c9Codes ["honda", "toyota"] c9Oracle c9Result
      rfl).2
     ("honda", [("P1601", "PCM communication error with VTEC solenoid")])
     (by decide)
     ("P1601", "PCM communication error with VTEC solenoid") (by decide)⟩

end Carpulse
